import Mathlib

/-!
# Verification of the unix-shell-js shell and vi editor

A shallow embedding, in Lean 4, of the `UnixShell` class (src/unnamed/part_000,
the TypeScript source of `src/index.ts`) and of the `ViEditor` class
(src/docs/vi-editor.js), together with proofs settling the frozen claims
C1..C10 about the natural-language specification of the repository.

JavaScript strings are modelled by Lean `String` (a wrapper around `List Char`);
JavaScript objects used as ordered string-keyed maps are modelled by ordered
association lists (`List (String × FSNode)`), which preserve insertion order
exactly as JS object keys do.  Mutation of `this` is modelled by explicit state
passing.  The three ad-hoc regular expressions of `execute` are embedded as
executable matching functions over character lists; `.` is embedded as
"any character", which agrees with the JS engine on the single-line command
strings the shell receives.  `new Date()` is modelled by an opaque `clock`
string carried in the state.  Persistence (`localStorage`) is disabled in the
embedded constructor (the `persistence = null` default of the source), so
`saveToStorage` is the identity; custom commands are not installed (the
`customCommands = {}` default).
-/

namespace UnixShellJS

/-- Whitespace test for the JS `\s` class and `String.prototype.trim`
(restricted to the ASCII whitespace actually occurring in shell input). -/
def isWsChar (c : Char) : Bool :=
  c = ' ' || c = '\t' || c = '\n' || c = '\r'

/-- JS `String.prototype.trim`. -/
def jsTrim (s : String) : String :=
  ⟨((s.data.dropWhile isWsChar).reverse.dropWhile isWsChar).reverse⟩

/-- Splits a character list at every occurrence of `sep` (JS `split(sep)`). -/
def splitChars (sep : Char) : List Char → List (List Char)
  | [] => [[]]
  | c :: cs =>
    if c = sep then [] :: splitChars sep cs
    else
      match splitChars sep cs with
      | t :: ts => (c :: t) :: ts
      | [] => [[c]]

/-- JS `path.split('/').filter(p => p)`: split on `/` and drop empty parts. -/
def splitSlash (s : String) : List String :=
  ((splitChars '/' s.data).filter (· ≠ [])).map (fun l => ⟨l⟩)

/-- JS `Array.prototype.join(sep)`. -/
def joinSep (sep : String) : List String → String
  | [] => ""
  | [s] => s
  | s :: rest => s ++ sep ++ joinSep sep rest

/-- JS `String.prototype.startsWith`. -/
def strStartsWith (s p : String) : Bool :=
  p.data.isPrefixOf s.data

/-- JS `String.prototype.endsWith`. -/
def strEndsWith (s p : String) : Bool :=
  p.data.reverse.isPrefixOf s.data.reverse

/-- JS `String.prototype.slice(n)` (drop the first `n` characters). -/
def strDrop (s : String) (n : Nat) : String :=
  ⟨s.data.drop n⟩

/-- Does `needle` occur as a contiguous sublist of `hay`? -/
def listInfixOf (needle : List Char) : List Char → Bool
  | [] => needle.isPrefixOf []
  | c :: cs => needle.isPrefixOf (c :: cs) || listInfixOf needle cs

/-- JS `String.prototype.includes(sub)` (substring containment). -/
def strIncludes (s sub : String) : Bool :=
  listInfixOf sub.data s.data

/-- JS `String.prototype.includes(c)` for a single character. -/
def strContainsChar (s : String) (c : Char) : Bool :=
  s.data.contains c

/-- JS `String.prototype.toLowerCase` (ASCII range, as used by the grep filter). -/
def strToLower (s : String) : String :=
  ⟨s.data.map Char.toLower⟩

/--
A `FileSystemNode` of the source: a file is a plain string of content, a
directory is a string-keyed object mapping names to child nodes.  JS object
key insertion order is preserved by the association list.
-/
inductive FSNode where
  | file (content : String)
  | dir (entries : List (String × FSNode))

/-- Directory entries (the body of a `FileSystemDirectory`). -/
abbrev FSDir := List (String × FSNode)

/-- JS `part in current` / `current[part]`: first-match association lookup. -/
def lookupEntry : FSDir → String → Option FSNode
  | [], _ => none
  | (k, v) :: rest, key => if k = key then some v else lookupEntry rest key

/-- JS `key in obj`. -/
def hasEntry (d : FSDir) (key : String) : Bool :=
  (lookupEntry d key).isSome

/-- JS `obj[key] = v`: overwriting an existing key keeps its position,
a fresh key is appended at the end (JS object key-order semantics). -/
def setEntry : FSDir → String → FSNode → FSDir
  | [], key, v => [(key, v)]
  | (k, w) :: rest, key, v =>
    if k = key then (key, v) :: rest else (k, w) :: setEntry rest key v

/-- JS `delete obj[key]`. -/
def removeEntry : FSDir → String → FSDir
  | [], _ => []
  | (k, w) :: rest, key => if k = key then rest else (k, w) :: removeEntry rest key

/-- The `environment` of the shell (the five keys the constructor writes). -/
structure Environment where
  USER : String
  HOME : String
  PWD : String
  PATH : String
  SHELL : String
deriving Repr, DecidableEq

/-- An entry of the `userStack` used by `su`/`exit`. -/
structure UserState where
  user : String
  home : String
  path : String
deriving Repr, DecidableEq

/--
The mutable state of a `UnixShell` instance.  `fileSystem` holds the entries of
the root directory (`this.fileSystem['/']`).  `clock` stands for the rendering
of `new Date()` (opaque to every claim).
-/
structure ShellState where
  fileSystem : FSDir
  currentUser : String
  currentPath : String
  environment : Environment
  commandHistory : List String
  userStack : List UserState
  isPiped : Bool
  clock : String

/-- `createDefaultFileSystem(username)` (entries of the root). -/
def createDefaultFileSystem (username : String) : FSDir :=
  [("home", .dir [(username, .dir
      [("README.md", .file "# Welcome\n\nThis is a simple Unix shell emulator.\n"),
       ("example.txt", .file "This is an example file.\n")])]),
   ("etc", .dir [("hostname", .file "localhost\n")]),
   ("tmp", .dir [])]

/-- The `UnixShell` constructor with `persistence = null` and
`customCommands = {}` (their defaults): an optional initial filesystem and a
username. -/
def mkUnixShell (fileSystem : Option FSDir) (username : String) (clock : String) :
    ShellState :=
  { fileSystem := fileSystem.getD (createDefaultFileSystem username)
    currentUser := username
    currentPath := "/home/" ++ username
    environment :=
      { USER := username
        HOME := "/home/" ++ username
        PWD := "/home/" ++ username
        PATH := "/usr/local/bin:/usr/bin:/bin"
        SHELL := "/bin/bash" }
    commandHistory := []
    userStack := []
    isPiped := false
    clock := clock }

/-- `resolvePath(path)`: `~` expansion, absolute paths returned as-is,
relative paths folded segment by segment onto the current path
(`..` pops — a no-op on an empty stack — and `.` is dropped). -/
def resolvePath (st : ShellState) (path : String) : String :=
  let path := if strStartsWith path "~" then st.environment.HOME ++ strDrop path 1 else path
  if strStartsWith path "/" then path
  else
    let parts := splitSlash st.currentPath
    let newParts := splitSlash path
    let final := newParts.foldl
      (fun acc part =>
        if part = ".." then acc.dropLast
        else if part ≠ "." then acc ++ [part]
        else acc)
      parts
    "/" ++ joinSep "/" final

/-- The walk inside `getNode`: follow each segment as a key lookup, failing when
the current node is a file or the key is absent. -/
def walkNode : FSNode → List String → Option FSNode
  | n, [] => some n
  | .dir entries, p :: ps =>
    match lookupEntry entries p with
    | some n => walkNode n ps
    | none => none
  | .file _, _ :: _ => none

/-- `getNode(path)`. -/
def getNode (st : ShellState) (path : String) : Option FSNode :=
  walkNode (.dir st.fileSystem) (splitSlash (resolvePath st path))

/-- `getOwner(path)` (note: applied to the *unresolved* argument in the source). -/
def getOwner (st : ShellState) (path : String) : String × String :=
  if strStartsWith path ("/home/" ++ st.currentUser) || path = "/home/" ++ st.currentUser then
    (st.currentUser, st.currentUser)
  else ("root", "root")

/-- `canWrite(path)`: root writes anywhere; otherwise a plain string-prefix
test of the resolved path against `"/home/" + currentUser`. -/
def canWrite (st : ShellState) (path : String) : Bool :=
  if st.currentUser = "root" then true
  else strStartsWith (resolvePath st path) ("/home/" ++ st.currentUser)

/-! ## The three ad-hoc regular expressions of `execute`

`execute` uses `/^(.+?)\s*>>\s*(.+)$/`, `/^(.+?)\s*>\s*(.+)$/` and (inside the
grep branch) `/^(.+?)\s*>>?\s*.+$/`.  They are embedded as executable
functions: the lazy group `(.+?)` tries split points left to right, and after
the arrow the greedy `\s*` run is given back one character when `(.+)` would
otherwise be empty (the only backtracking the JS engine can perform here,
since no whitespace character is `>`). -/

/-- Tail `\s*>>\s*(.+)$` of the append-redirect regex: returns group 2. -/
def tailAppend (rest : List Char) : Option (List Char) :=
  match rest.dropWhile isWsChar with
  | '>' :: '>' :: r2 =>
    let rem := r2.dropWhile isWsChar
    if rem ≠ [] then some rem
    else
      match (r2.takeWhile isWsChar).reverse with
      | [] => none
      | c :: _ => some [c]
  | _ => none

/-- Tail `\s*>\s*(.+)$` of the overwrite-redirect regex: returns group 2
(which may itself begin with `>`). -/
def tailOverwrite (rest : List Char) : Option (List Char) :=
  match rest.dropWhile isWsChar with
  | '>' :: r2 =>
    let rem := r2.dropWhile isWsChar
    if rem ≠ [] then some rem
    else
      match (r2.takeWhile isWsChar).reverse with
      | [] => none
      | c :: _ => some [c]
  | _ => none

/-- Tail `\s*>>?\s*.+$` of the grep-internal redirect regex (the greedy `?`
prefers the double arrow and falls back to the single one). -/
def tailGrep (rest : List Char) : Option (List Char) :=
  match rest.dropWhile isWsChar with
  | '>' :: '>' :: r2 =>
    let rem := r2.dropWhile isWsChar
    if rem ≠ [] then some rem
    else
      match (r2.takeWhile isWsChar).reverse with
      | [] => some ('>' :: r2)
      | c :: _ => some [c]
  | '>' :: r2 =>
    let rem := r2.dropWhile isWsChar
    if rem ≠ [] then some rem
    else
      match (r2.takeWhile isWsChar).reverse with
      | [] => none
      | c :: _ => some [c]
  | _ => none

/-- The lazy `^(.+?)` loop: grow group 1 one character at a time until the
tail matcher accepts the remainder. -/
def lazyGroups (tailf : List Char → Option (List Char)) :
    List Char → List Char → Option (List Char × List Char)
  | g1, [] =>
    match tailf [] with
    | some g2 => some (g1, g2)
    | none => none
  | g1, c :: rs =>
    match tailf (c :: rs) with
    | some g2 => some (g1, g2)
    | none => lazyGroups tailf (g1 ++ [c]) rs

/-- Full match of one of the three redirect regexes against a string:
`(group 1, group 2)` on success. -/
def jsLazyRedirect (tail : List Char → Option (List Char)) (s : String) :
    Option (String × String) :=
  match s.data with
  | [] => none
  | c :: rest =>
    match lazyGroups tail [c] rest with
    | some (g1, g2) => some (⟨g1⟩, ⟨g2⟩)
    | none => none

/-- A character matched by `[^\s"']` of the grep tokenizer. -/
def isPlainTokChar (c : Char) : Bool :=
  !(isWsChar c) && c ≠ '"' && c ≠ '\''

/-- One unit `[^\s"']+ | "[^"]*" | '[^']*'` of the grep tokenizer: the token
text consumed (quotes included) and the remainder. -/
def grepUnit : List Char → Option (List Char × List Char)
  | [] => none
  | c :: cs =>
    if isPlainTokChar c then
      some ((c :: cs).takeWhile isPlainTokChar, (c :: cs).dropWhile isPlainTokChar)
    else if c = '"' then
      match cs.dropWhile (· ≠ '"') with
      | '"' :: rest => some ('"' :: cs.takeWhile (· ≠ '"') ++ ['"'], rest)
      | _ => none
    else if c = '\'' then
      match cs.dropWhile (· ≠ '\'') with
      | '\'' :: rest => some ('\'' :: cs.takeWhile (· ≠ '\'') ++ ['\''], rest)
      | _ => none
    else none

/-- One token `(?:unit)+` (fuel-driven: every unit consumes at least one
character, so fuel `≥` input length is exact). -/
def grepTokenF : Nat → List Char → Option (List Char × List Char)
  | 0, _ => none
  | fuel + 1, l =>
    match grepUnit l with
    | none => none
    | some (u, rest) =>
      match grepTokenF fuel rest with
      | some (u2, rest2) => some (u ++ u2, rest2)
      | none => some (u, rest)

/-- All matches of `/(?:[^\s"']+|"[^"]*"|'[^']*')+/g` over a string
(`grepArgs.match(...) || []` of the source). -/
def grepMatchAll (s : String) : List String :=
  (go s.data.length s.data).map (fun l => (⟨l⟩ : String))
where
  go : Nat → List Char → List (List Char)
    | 0, _ => []
    | _, [] => []
    | fuel + 1, c :: cs =>
      match grepTokenF (fuel + 1) (c :: cs) with
      | some (tok, rest) => tok :: go fuel rest
      | none => go fuel cs

/-- `text.replace(/^["']|["']$/g, '')`: drop one surrounding quote character
at each end (used by `cmd_echo` and for the grep pattern). -/
def jsStripEdgeQuotes (s : String) : String :=
  let l := s.data
  let l1 := match l with
    | c :: rest => if c = '"' || c = '\'' then rest else l
    | [] => []
  let l2 := match l1.reverse with
    | c :: rest => if c = '"' || c = '\'' then rest.reverse else l1
    | [] => l1
  ⟨l2⟩

/-! ## Wildcard expansion -/

/-- A token of the anchored pattern `'^' + pattern + '$'` built by
`expandWildcards`: a literal character, `.` (any single character), or `.*`
(any run).  This token language covers exactly the regexes produced by the
two `replace` calls on arguments made of non-special characters (the
library's wildcard contract: `*`/`?` globbing, not full regular
expressions). -/
inductive WTok where
  | lit (c : Char)
  | anyc
  | star

/-- `arg.replace(/\*/g, '.*').replace(/\?/g, '.')`. -/
def jsReplaceWild : List Char → List Char
  | [] => []
  | c :: rest =>
    if c = '*' then '.' :: '*' :: jsReplaceWild rest
    else if c = '?' then '.' :: jsReplaceWild rest
    else c :: jsReplaceWild rest

/-- Scan the replaced pattern into tokens (in the output of `jsReplaceWild`
every `*` immediately follows a `.`, so the scan is unambiguous). -/
def parseWildPattern : List Char → List WTok
  | [] => []
  | '.' :: '*' :: rest => .star :: parseWildPattern rest
  | '.' :: rest => .anyc :: parseWildPattern rest
  | c :: rest => .lit c :: parseWildPattern rest

/-- Anchored matching of a token list against a name, fuel-driven so that it
unfolds by kernel reduction (every step shrinks `p.length + s.length`, so any
fuel `≥ p.length + s.length + 1` is exact): the embedding of
`new RegExp('^' + pattern + '$').test(name)`. -/
def wmatchF : Nat → List WTok → List Char → Bool
  | 0, _, _ => false
  | _ + 1, [], [] => true
  | _ + 1, [], _ :: _ => false
  | _ + 1, .lit _ :: _, [] => false
  | fuel + 1, .lit c :: ts, x :: xs => c = x && wmatchF fuel ts xs
  | _ + 1, .anyc :: _, [] => false
  | fuel + 1, .anyc :: ts, _ :: xs => wmatchF fuel ts xs
  | fuel + 1, .star :: ts, [] => wmatchF fuel ts []
  | fuel + 1, .star :: ts, x :: xs =>
    wmatchF fuel ts (x :: xs) || wmatchF fuel (.star :: ts) xs

/-- Anchored matching with exact fuel. -/
def wmatch (p : List WTok) (s : List Char) : Bool :=
  wmatchF (p.length + s.length + 1) p s

/-- `regex.test(name)` for the wildcard pattern built from `arg`. -/
def wtestName (arg name : String) : Bool :=
  wmatch (parseWildPattern (jsReplaceWild arg.data)) name.data

/-- `expandWildcards(args)`. -/
def expandWildcards (st : ShellState) (args : List String) : List String :=
  args.foldl
    (fun expanded arg =>
      if strContainsChar arg '*' || strContainsChar arg '?' then
        match getNode st st.currentPath with
        | some (.dir entries) =>
          let matched := (entries.map Prod.fst).filter (fun name => wtestName arg name)
          if matched ≠ [] then expanded ++ matched else expanded ++ [arg]
        | _ => expanded ++ [arg]
      else expanded ++ [arg])
    []

/-! ## Tree updates

JS handlers mutate the directory object returned by `getNode` in place; since
the tree has exclusive ownership (each child has exactly one parent), this
equals a functional update of the entries at that path. -/

/-- Apply `f` to the entries of the directory reached by following `segs`
(no change when the walk fails or hits a file, mirroring the guards the
handlers perform before mutating). -/
def updateNodeEntries (f : FSDir → FSDir) : FSNode → List String → FSNode
  | .dir entries, [] => .dir (f entries)
  | .dir entries, p :: ps =>
    match lookupEntry entries p with
    | some child => .dir (setEntry entries p (updateNodeEntries f child ps))
    | none => .dir entries
  | .file c, _ => .file c

/-- Update the root entries at path `segs`. -/
def updateFS (root : FSDir) (segs : List String) (f : FSDir → FSDir) : FSDir :=
  match updateNodeEntries f (.dir root) segs with
  | .dir entries => entries
  | .file _ => root

/-! ## String formatting helpers of the command set -/

/-- JS `String.prototype.padEnd(n)` with spaces. -/
def padEndStr (s : String) (n : Nat) : String :=
  s ++ ⟨List.replicate (n - s.data.length) ' '⟩

/-- JS `String.prototype.padStart(n)` with spaces. -/
def padStartStr (s : String) (n : Nat) : String :=
  (⟨List.replicate (n - s.data.length) ' '⟩ : String) ++ s

/-- Lexicographic comparison of character lists (code-point order). -/
def cmpCharList : List Char → List Char → Ordering
  | [], [] => .eq
  | [], _ :: _ => .lt
  | _ :: _, [] => .gt
  | a :: as, b :: bs =>
    if a < b then .lt else if b < a then .gt else cmpCharList as bs

/-- `a.localeCompare(b)`: approximated by case-insensitive code-point order
with raw order as tie-break — this agrees with the en-US collation on the
alphanumeric-with-dot names this development evaluates it on. -/
def jsLocaleCompare (a b : String) : Ordering :=
  match cmpCharList (strToLower a).data (strToLower b).data with
  | .eq => cmpCharList a.data b.data
  | o => o

/-- Insertion sort by a comparator (JS `Array.prototype.sort` is stable and
agrees with insertion sort up to ties of the comparator). -/
def insertOrd (cmp : String → String → Ordering) (x : String) :
    List String → List String
  | [] => [x]
  | y :: ys => if cmp x y = .gt then y :: insertOrd cmp x ys else x :: y :: ys

/-- Sort a list of strings by a comparator. -/
def sortByCmp (cmp : String → String → Ordering) : List String → List String
  | [] => []
  | x :: xs => insertOrd cmp x (sortByCmp cmp xs)

/-- The `ls` comparator: directories before files, then `localeCompare`. -/
def lsComparator (node : FSDir) (a b : String) : Ordering :=
  let aIsDir := match lookupEntry node a with | some (.dir _) => true | _ => false
  let bIsDir := match lookupEntry node b with | some (.dir _) => true | _ => false
  if aIsDir && !bIsDir then .lt
  else if !aIsDir && bIsDir then .gt
  else jsLocaleCompare a b

/-! ## The command set -/

/-- Registration order of the built-in commands (`initializeCommands`). -/
def builtinNames : List String :=
  ["help", "ls", "cd", "pwd", "cat", "echo", "clear", "whoami", "date",
   "uname", "env", "history", "mkdir", "touch", "rm", "tree", "ps", "vi",
   "vim", "su", "sudo", "exit"]

/-- `cmd_help` (command list sorted by JS default string order). -/
def cmd_help (_st : ShellState) : String :=
  let sorted := sortByCmp (fun a b => cmpCharList a.data b.data) builtinNames
  "Available commands:\n" ++ joinSep "\n" (sorted.map (fun c => "  " ++ c)) ++
    "\n\nType any command to try it out!"

/-- The flags accepted by `cmd_ls`. -/
structure LsFlags where
  showHidden : Bool
  longFormat : Bool
  humanReadable : Bool

/-- The `-l` line for one entry. -/
def lsLongLine (st : ShellState) (path : String) (node : FSDir)
    (humanReadable : Bool) (name : String) : String :=
  let isDir := match lookupEntry node name with | some (.dir _) => true | _ => false
  let perms := if isDir then "drwxr-xr-x" else "-rw-r--r--"
  let links := if isDir then "2" else "1"
  let filePath := if path = "/" then "/" ++ name else path ++ "/" ++ name
  let owner := getOwner st filePath
  let size :=
    if isDir then "4096"
    else
      let bytes := (match lookupEntry node name with
        | some (.file content) => content.data.length
        | _ => 0)
      if humanReadable then
        if bytes < 1024 then toString bytes ++ "B"
        else if bytes < 1024 * 1024 then toString ((bytes + 512) / 1024) ++ "K"
        else toString ((bytes + 524288) / 1048576) ++ "M"
      else toString bytes
  perms ++ " " ++ links ++ " " ++ padEndStr owner.1 8 ++ " " ++
    padEndStr owner.2 8 ++ " " ++ padStartStr size (if humanReadable then 5 else 8) ++
    " " ++ st.clock ++ " " ++ name

/-- `cmd_ls(args)`. -/
def cmd_ls (st : ShellState) (args : List String) : String :=
  let init : LsFlags × List String := (⟨false, false, false⟩, [])
  let (flags, targetPaths) := args.foldl
    (fun (acc : LsFlags × List String) arg =>
      if strStartsWith arg "-" then
        ({ showHidden := acc.1.showHidden || strContainsChar arg 'a'
           longFormat := acc.1.longFormat || strContainsChar arg 'l'
           humanReadable := acc.1.humanReadable || strContainsChar arg 'h' }, acc.2)
      else (acc.1, acc.2 ++ [arg]))
    init
  let targetPaths := if targetPaths = [] then [st.currentPath] else targetPaths
  let results := targetPaths.foldl
    (fun results targetPath =>
      let path := if targetPath = "." then st.currentPath else resolvePath st targetPath
      match getNode st path with
      | none =>
        results ++ ["ls: cannot access '" ++ targetPath ++ "': No such file or directory"]
      | some (.file _) => results ++ [targetPath]
      | some (.dir node) =>
        let entries := node.map Prod.fst
        let entries := if flags.showHidden then entries
          else entries.filter (fun name => !strStartsWith name ".")
        if entries = [] then results
        else
          let entries := sortByCmp (lsComparator node) entries
          if flags.longFormat then
            results ++ [joinSep "\n" (entries.map (lsLongLine st path node flags.humanReadable))]
          else
            let formatted := entries.map (fun name =>
              match lookupEntry node name with
              | some (.dir _) => name ++ "/"
              | _ => name)
            if st.isPiped then results ++ [joinSep "\n" formatted]
            else results ++ [joinSep "    " formatted])
    []
  joinSep "\n" results

/-- `cmd_cd(args)`. -/
def cmd_cd (st : ShellState) (args : List String) : ShellState × String :=
  let goHome : ShellState × String :=
    ({ st with currentPath := st.environment.HOME
               environment := { st.environment with PWD := st.environment.HOME } }, "")
  match args with
  | [] => goHome
  | a0 :: _ =>
    if a0 = "" then goHome
    else
      let newPath := resolvePath st a0
      match getNode st newPath with
      | none => (st, "cd: " ++ a0 ++ ": No such file or directory")
      | some (.file _) => (st, "cd: " ++ a0 ++ ": Not a directory")
      | some (.dir _) =>
        ({ st with currentPath := newPath
                   environment := { st.environment with PWD := newPath } }, "")

/-- `cmd_pwd()`. -/
def cmd_pwd (st : ShellState) : String := st.currentPath

/-- `cmd_cat(args)`. -/
def cmd_cat (st : ShellState) (args : List String) : String :=
  match args with
  | [] => "cat: missing file operand"
  | a0 :: _ =>
    if a0 = "" then "cat: missing file operand"
    else
      match getNode st a0 with
      | none => "cat: " ++ a0 ++ ": No such file or directory"
      | some (.dir _) => "cat: " ++ a0 ++ ": Is a directory"
      | some (.file content) => content

/-- `cmd_echo(args)`: join and strip one layer of surrounding quotes. -/
def cmd_echo (args : List String) : String :=
  jsStripEdgeQuotes (joinSep " " args)

/-- `cmd_uname(args)`. -/
def cmd_uname (args : List String) : String :=
  if args.contains "-a" then "UnixShell 1.0.0 UnixShell Terminal x86_64 GNU/JavaScript"
  else "UnixShell"

/-- `cmd_env()`: insertion order of the environment keys. -/
def cmd_env (st : ShellState) : String :=
  joinSep "\n"
    ["USER=" ++ st.environment.USER, "HOME=" ++ st.environment.HOME,
     "PWD=" ++ st.environment.PWD, "PATH=" ++ st.environment.PATH,
     "SHELL=" ++ st.environment.SHELL]

/-- `cmd_history()`. -/
def cmd_history (st : ShellState) : String :=
  joinSep "\n" ((st.commandHistory.enum.map
    (fun p => toString (p.1 + 1) ++ "  " ++ p.2)))

/-- `cmd_mkdir(args)`. -/
def cmd_mkdir (st : ShellState) (args : List String) : ShellState × String :=
  match args with
  | [] => (st, "mkdir: missing operand")
  | a0 :: _ =>
    if a0 = "" then (st, "mkdir: missing operand")
    else
      let path := resolvePath st a0
      if !canWrite st path then
        (st, "mkdir: cannot create directory '" ++ a0 ++ "': Permission denied")
      else
        let parts := splitSlash path
        let dirName := (parts.getLast?).getD "undefined"
        let parentParts := parts.dropLast
        let parentPath := "/" ++ joinSep "/" parentParts
        match getNode st parentPath with
        | none => (st, "mkdir: cannot create directory '" ++ a0 ++ "': No such file or directory")
        | some (.file _) => (st, "mkdir: cannot create directory '" ++ a0 ++ "': Not a directory")
        | some (.dir parent) =>
          if hasEntry parent dirName then
            (st, "mkdir: cannot create directory '" ++ a0 ++ "': File exists")
          else
            ({ st with fileSystem :=
                (updateFS st.fileSystem parentParts (fun p => setEntry p dirName (.dir []))) }, "")

/-- `cmd_touch(args)`. -/
def cmd_touch (st : ShellState) (args : List String) : ShellState × String :=
  match args with
  | [] => (st, "touch: missing file operand")
  | a0 :: _ =>
    if a0 = "" then (st, "touch: missing file operand")
    else
      let path := resolvePath st a0
      if !canWrite st path then
        (st, "touch: cannot touch '" ++ a0 ++ "': Permission denied")
      else
        let parts := splitSlash path
        let fileName := (parts.getLast?).getD "undefined"
        let parentParts := parts.dropLast
        let parentPath := "/" ++ joinSep "/" parentParts
        match getNode st parentPath with
        | none => (st, "touch: cannot touch '" ++ a0 ++ "': No such file or directory")
        | some (.file _) => (st, "touch: cannot touch '" ++ a0 ++ "': Not a directory")
        | some (.dir parent) =>
          if hasEntry parent fileName then (st, "")
          else
            ({ st with fileSystem :=
                (updateFS st.fileSystem parentParts (fun p => setEntry p fileName (.file ""))) }, "")

/-- One `rm` target: `(new state, error line?, removed line?)`. -/
def rmTarget (recursive force verbose : Bool) (st : ShellState) (target : String) :
    ShellState × Option String × Option String :=
  let path := resolvePath st target
  let parts := splitSlash path
  let fileName := (parts.getLast?).getD "undefined"
  let parentParts := parts.dropLast
  let parentPath := "/" ++ joinSep "/" parentParts
  if !canWrite st parentPath then
    (st, some ("rm: cannot remove '" ++ target ++ "': Permission denied"), none)
  else
    match getNode st parentPath with
    | some (.dir parent) =>
      match lookupEntry parent fileName with
      | none =>
        if force then (st, none, none)
        else (st, some ("rm: cannot remove '" ++ target ++ "': No such file or directory"), none)
      | some (.dir _) =>
        if !recursive then
          if force then (st, none, none)
          else (st, some ("rm: cannot remove '" ++ target ++ "': Is a directory"), none)
        else
          ({ st with fileSystem :=
               (updateFS st.fileSystem parentParts (fun p => removeEntry p fileName)) },
           none, if verbose then some ("removed '" ++ target ++ "'") else none)
      | some (.file _) =>
        ({ st with fileSystem :=
             (updateFS st.fileSystem parentParts (fun p => removeEntry p fileName)) },
         none, if verbose then some ("removed '" ++ target ++ "'") else none)
    | _ =>
      if force then (st, none, none)
      else (st, some ("rm: cannot remove '" ++ target ++ "': No such file or directory"), none)

/-- `cmd_rm(args)`. -/
def cmd_rm (st : ShellState) (args : List String) : ShellState × String :=
  match args with
  | [] => (st, "rm: missing operand")
  | a0 :: _ =>
    if a0 = "" then (st, "rm: missing operand")
    else
      let init : Bool × Bool × Bool × List String := (false, false, false, [])
      let (recursive, force, verbose, targets) := args.foldl
        (fun (acc : Bool × Bool × Bool × List String) arg =>
          if strStartsWith arg "-" then
            (acc.1 || strContainsChar arg 'r' || strContainsChar arg 'R',
             acc.2.1 || strContainsChar arg 'f',
             acc.2.2.1 || strContainsChar arg 'v', acc.2.2.2)
          else (acc.1, acc.2.1, acc.2.2.1, acc.2.2.2 ++ [arg]))
        init
      if targets = [] then (st, "rm: missing operand")
      else
        let (st', errors, removed) := targets.foldl
          (fun (acc : ShellState × List String × List String) target =>
            let (st'', err, rem) := rmTarget recursive force verbose acc.1 target
            (st'', acc.2.1 ++ err.toList, acc.2.2 ++ rem.toList))
          (st, [], [])
        let output := if verbose && removed ≠ [] then joinSep "\n" removed else ""
        let output :=
          if errors ≠ [] then
            (if output ≠ "" then output ++ "\n" else output) ++ joinSep "\n" errors
          else output
        (st', output)

/-- The recursive renderer inside `cmd_tree`. -/
def buildTree (prefixStr : String) : FSDir → String
  | [] => ""
  | (name, value) :: rest =>
    let isLastEntry := rest.isEmpty
    let connector := if isLastEntry then "└── " else "├── "
    let line := prefixStr ++ connector ++ name ++
      (match value with | .dir _ => "/\n" | .file _ => "\n")
    let sub := match value with
      | .dir es => buildTree (prefixStr ++ (if isLastEntry then "    " else "│   ")) es
      | .file _ => ""
    line ++ sub ++ buildTree prefixStr rest

/-- The outcome of one handler invocation: normal output, or an internal
fault caught at the dispatch boundary. -/
inductive CmdOut where
  | ok (out : String)
  | fault (msg : String)

/-- `cmd_tree()`.  When the current directory node is missing,
`Object.entries(null)` raises a `TypeError` (caught by `execute`); when it is
a file, `Object.entries` enumerates the string's indices. -/
def cmd_tree (st : ShellState) : CmdOut :=
  match getNode st st.currentPath with
  | some (.dir entries) => .ok (st.currentPath ++ "/\n" ++ buildTree "" entries)
  | some (.file content) =>
    let charEntries : FSDir :=
      content.data.enum.map (fun p => (toString p.1, .file ⟨[p.2]⟩))
    .ok (st.currentPath ++ "/\n" ++ buildTree "" charEntries)
  | none => .fault "Cannot convert undefined or null to object"

/-- `cmd_ps(args)`. -/
def cmd_ps (_st : ShellState) : String :=
  "  PID TTY          TIME CMD\n" ++
  padStartStr "1" 5 ++ " " ++ padEndStr "?" 12 ++ " " ++ padStartStr "0:01" 8 ++ " init\n" ++
  padStartStr "100" 5 ++ " " ++ padEndStr "pts/0" 12 ++ " " ++ padStartStr "0:00" 8 ++ " bash\n" ++
  padStartStr "101" 5 ++ " " ++ padEndStr "pts/0" 12 ++ " " ++ padStartStr "0:00" 8 ++ " ps\n"

/-- `openEditor(filename)`: the editor bootstrap is host UI; the shell state
is unchanged and the sentinel is returned. -/
def openEditor (_st : ShellState) (_filename : String) : String :=
  "__VI_OPENED__"

/-- `cmd_vi(args)` / `cmd_vim(args)`. -/
def cmd_vi (st : ShellState) (args : List String) : String :=
  openEditor st (match args with
    | [] => "untitled"
    | a :: _ => if a = "" then "untitled" else a)

/-- `cmd_su(args)`. -/
def cmd_su (st : ShellState) (args : List String) : ShellState × String :=
  let targetUser := match args with
    | [] => "root"
    | a :: _ => if a = "" then "root" else a
  let st := { st with userStack :=
      st.userStack ++ [UserState.mk st.currentUser st.environment.HOME st.currentPath] }
  let home := if targetUser = "root" then "/root" else "/home/" ++ targetUser
  ({ st with currentUser := targetUser
             environment := { st.environment with
               USER := targetUser, HOME := home, PWD := st.currentPath } },
   "__USER_SWITCHED__:" ++ targetUser)

/-- `cmd_exit()`. -/
def cmd_exit (st : ShellState) : ShellState × String :=
  match st.userStack.getLast? with
  | none => (st, "exit: no other user session to return to")
  | some previousUser =>
    ({ st with userStack := st.userStack.dropLast
               currentUser := previousUser.user
               currentPath := previousUser.path
               environment := { st.environment with
                 USER := previousUser.user, HOME := previousUser.home,
                 PWD := previousUser.path } },
     "__USER_SWITCHED__:" ++ previousUser.user)

/-- Dispatch a command name to its handler (`this.commands[command](args)`),
`none` when the name is not registered.  `cmd_sudo` is inlined in its own
case since it re-enters the dispatch (through `recur`) with the remaining
arguments; the fuel of `runCommandF` makes that recursion structural (each
re-entry drops one argument, so any fuel `> args.length` is exact). -/
def runCommandStep (recur : String → List String → ShellState → Option (ShellState × CmdOut))
    (c : String) (args : List String) (st : ShellState) : Option (ShellState × CmdOut) :=
    if c = "help" then some (st, .ok (cmd_help st))
    else if c = "ls" then some (st, .ok (cmd_ls st args))
    else if c = "cd" then some ((cmd_cd st args).1, .ok (cmd_cd st args).2)
    else if c = "pwd" then some (st, .ok (cmd_pwd st))
    else if c = "cat" then some (st, .ok (cmd_cat st args))
    else if c = "echo" then some (st, .ok (cmd_echo args))
    else if c = "clear" then some (st, .ok "__CLEAR__")
    else if c = "whoami" then some (st, .ok st.environment.USER)
    else if c = "date" then some (st, .ok st.clock)
    else if c = "uname" then some (st, .ok (cmd_uname args))
    else if c = "env" then some (st, .ok (cmd_env st))
    else if c = "history" then some (st, .ok (cmd_history st))
    else if c = "mkdir" then some ((cmd_mkdir st args).1, .ok (cmd_mkdir st args).2)
    else if c = "touch" then some ((cmd_touch st args).1, .ok (cmd_touch st args).2)
    else if c = "rm" then some ((cmd_rm st args).1, .ok (cmd_rm st args).2)
    else if c = "tree" then some (st, cmd_tree st)
    else if c = "ps" then some (st, .ok (cmd_ps st))
    else if c = "vi" then some (st, .ok (cmd_vi st args))
    else if c = "vim" then some (st, .ok (cmd_vi st args))
    else if c = "su" then some ((cmd_su st args).1, .ok (cmd_su st args).2)
    else if c = "sudo" then
      match args with
      | [] => some (st, .ok "sudo: undefined: command not found")
      | a :: rest =>
        if a = "su" then some ((cmd_su st rest).1, .ok (cmd_su st rest).2)
        else
          match recur a rest st with
          | some r => some r
          | none => some (st, .ok ("sudo: " ++ a ++ ": command not found"))
    else if c = "exit" then some ((cmd_exit st).1, .ok (cmd_exit st).2)
    else none

/-- The fuel recursion over `runCommandStep`. -/
def runCommandF : Nat → String → List String → ShellState → Option (ShellState × CmdOut)
  | 0, _, _, _ => none
  | fuel + 1, c, args, st => runCommandStep (runCommandF fuel) c args st

/-- Dispatch with exact fuel. -/
def runCommand (c : String) (args : List String) (st : ShellState) :
    Option (ShellState × CmdOut) :=
  runCommandF (args.length + 1) c args st

/-! ## The command pipeline (`execute`) -/

/-- The grep flags extracted from the pipe segment. -/
structure GrepFlags where
  ignoreCase : Bool
  invert : Bool
deriving Repr, DecidableEq

/-- A redirect mode. -/
inductive RMode where
  | append
  | overwrite
deriving Repr, DecidableEq

/-- `writeToFile(filePath, content, mode)`: `(new state, error string?)`. -/
def writeToFile (st : ShellState) (filePath content : String) (mode : RMode) :
    ShellState × Option String :=
  let fullPath := resolvePath st filePath
  let parts := splitSlash fullPath
  let fileName := (parts.getLast?).getD "undefined"
  let parentParts := parts.dropLast
  let parentPath := "/" ++ joinSep "/" parentParts
  match getNode st parentPath with
  | none => (st, some ("bash: " ++ filePath ++ ": No such file or directory"))
  | some (.file _) => (st, some ("bash: " ++ filePath ++ ": Not a directory"))
  | some (.dir parent) =>
    match lookupEntry parent fileName with
    | some (.dir _) => (st, some ("bash: " ++ filePath ++ ": Is a directory"))
    | some (.file old) =>
      let newContent := match mode with
        | .append => old ++ content
        | .overwrite => content
      ({ st with fileSystem :=
          (updateFS st.fileSystem parentParts (fun p => setEntry p fileName (.file newContent))) },
       none)
    | none =>
      ({ st with fileSystem :=
          (updateFS st.fileSystem parentParts (fun p => setEntry p fileName (.file content))) },
       none)

/-- Split a character list at the first occurrence of `c`
(JS `indexOf` + the two `substring` calls). -/
def splitAtFirst (c : Char) : List Char → Option (List Char × List Char)
  | [] => none
  | x :: xs =>
    if x = c then some ([], xs)
    else (splitAtFirst c xs).map (fun p => (x :: p.1, p.2))

/-- The pipe-to-grep stage of `execute`: returns the detected
`(pattern, flags)` (if any), the command text to execute, and the (possibly
rewritten) command line the redirect stage will inspect. -/
def extractGrep (commandLine : String) :
    Option (String × GrepFlags) × String × String :=
  match splitAtFirst '|' commandLine.data with
  | none => (none, commandLine, commandLine)
  | some (before, after) =>
    let beforePipe := jsTrim ⟨before⟩
    let afterPipe := jsTrim ⟨after⟩
    if strStartsWith afterPipe "grep " || afterPipe = "grep" then
      let grepCommand := jsTrim (strDrop afterPipe 4)
      let (grepArgs, newCommandLine) :=
        match jsLazyRedirect tailGrep grepCommand with
        | some (g1, _) =>
          let ga := jsTrim g1
          (ga, beforePipe ++ " " ++ strDrop grepCommand ga.data.length)
        | none => (grepCommand, commandLine)
      let grepParts := grepMatchAll grepArgs
      let scan := grepParts.foldl
        (fun (acc : GrepFlags × Option String) part =>
          if part = "-i" then ({ acc.1 with ignoreCase := true }, acc.2)
          else if part = "-v" then ({ acc.1 with invert := true }, acc.2)
          else match acc.2 with
            | none => (acc.1, some (jsStripEdgeQuotes part))
            | some _ => acc)
        (⟨false, false⟩, none)
      (match scan.2 with
       | some p => some (p, scan.1)
       | none => none,
       beforePipe, newCommandLine)
    else (none, commandLine, commandLine)

/-- Whitespace tokenization `actualCommand.trim().split(/\s+/)`
(`[""]` for an all-whitespace command text, as in JS). -/
def wsTokensAux (acc : List Char) : List Char → List (List Char)
  | [] => if acc.isEmpty then [] else [acc.reverse]
  | c :: cs =>
    if isWsChar c then
      if acc.isEmpty then wsTokensAux [] cs
      else acc.reverse :: wsTokensAux [] cs
    else wsTokensAux (c :: acc) cs

/-- `s.trim().split(/\s+/)`. -/
def jsSplitWsTrim (s : String) : List String :=
  let t := jsTrim s
  if t.data.isEmpty then [""]
  else (wsTokensAux [] t.data).map (fun l => (⟨l⟩ : String))

/-- The grep filter applied to the command output (`execute`, filter stage). -/
def applyGrepFilter (pattern : String) (flags : GrepFlags) (output : String) : String :=
  let lines := (splitChars '\n' output.data).map (fun l => (⟨l⟩ : String))
  let filtered := lines.filter (fun line =>
    let m :=
      if flags.ignoreCase then strIncludes (strToLower line) (strToLower pattern)
      else strIncludes line pattern
    if flags.invert then !m else m)
  let out := joinSep "\n" filtered
  if strEndsWith out "\n\n" then ⟨out.data.dropLast⟩ else out

/-- `execute(commandLine)`: returns the mutated state and the output string. -/
def execute (st : ShellState) (commandLine : String) : ShellState × String :=
  if jsTrim commandLine = "" then (st, "")
  else
    let st := { st with commandHistory := st.commandHistory ++ [commandLine] }
    let stage1 := extractGrep commandLine
    let grep := stage1.1
    let commandLine2 := stage1.2.2
    let stage2 : Option (RMode × String) × String :=
      match jsLazyRedirect tailAppend commandLine2 with
      | some (g1, g2) => (some (RMode.append, jsTrim g2), jsTrim g1)
      | none =>
        match jsLazyRedirect tailOverwrite commandLine2 with
        | some (g1, g2) => (some (RMode.overwrite, jsTrim g2), jsTrim g1)
        | none => (none, stage1.2.1)
    let redirect := stage2.1
    let parts := jsSplitWsTrim stage2.2
    let command := parts.headD ""
    let args := expandWildcards st parts.tail
    match runCommand command args { st with isPiped := grep.isSome } with
    | none => (st, command ++ ": command not found")
    | some (st2, .fault msg) => (st2, "Error executing " ++ command ++ ": " ++ msg)
    | some (st2, .ok output) =>
      let st3 := { st2 with isPiped := false }
      let output := match grep with
        | some (pat, flags) => if output ≠ "" then applyGrepFilter pat flags output else output
        | none => output
      match redirect with
      | some (mode, file) =>
        if file ≠ "" then
          match writeToFile st3 file output mode with
          | (st4, some err) => (st4, err)
          | (st4, none) => (st4, "")
        else (st3, output)
      | none => (st3, output)

/-- Run a sequence of command lines, returning the final state and the last
output (`""` for the empty sequence). -/
def executeAll (st : ShellState) : List String → ShellState × String
  | [] => (st, "")
  | [line] => execute st line
  | line :: rest => executeAll (execute st line).1 rest

/-!
## The modal text editor (`ViEditor`, src/docs/vi-editor.js)

A line of the buffer is a `List Char` (a JS string viewed as a character
sequence).  DOM setup, rendering and event (un)subscription are host UI; the
embedded state keeps a `closed` flag for `close()` and records the argument of
the last `saveCallback` invocation in `savedContent`.
-/

/-- A buffer line. -/
abbrev Line := List Char

/-- The editor mode. -/
inductive EMode where
  | normal
  | insert
  | command
deriving Repr, DecidableEq

/-- A `keydown` event as the editor consumes it. -/
structure KeyEvent where
  key : String
  shiftKey : Bool
  ctrlKey : Bool
  metaKey : Bool
deriving Repr, DecidableEq

/-- The `ViEditor` instance state. -/
structure ViEditor where
  filename : String
  lines : List Line
  cursorRow : Nat
  cursorCol : Nat
  mode : EMode
  commandBuffer : String
  normalModeBuffer : String
  yankBuffer : Line
  message : String
  modified : Bool
  closed : Bool
  savedContent : Option Line
deriving Repr, DecidableEq

/-- The `ViEditor` constructor:
`lines = content ? content.split('\n') : ['']`, cursor `(0,0)`, normal mode. -/
def mkViEditor (filename content : String) : ViEditor :=
  { filename := filename
    lines := if content = "" then [[]] else splitChars '\n' content.data
    cursorRow := 0
    cursorCol := 0
    mode := .normal
    commandBuffer := ""
    normalModeBuffer := ""
    yankBuffer := []
    message := ""
    modified := false
    closed := false
    savedContent := none }

/-- The line under the cursor (`this.lines[this.cursorRow]`). -/
def curLine (ed : ViEditor) : Line :=
  ed.lines.getD ed.cursorRow []

/-- JS `arr.splice(i, n)` (remove `n` elements at `i`). -/
def removeCount (l : List Line) (i n : Nat) : List Line :=
  l.take i ++ l.drop (i + n)

/-- JS `arr.splice(i, 0, x)` (insert `x` at `i`). -/
def insertAt (l : List Line) (i : Nat) (x : Line) : List Line :=
  l.take i ++ x :: l.drop i

/-- `lines.join('\n')`. -/
def joinLines : List Line → Line
  | [] => []
  | [l] => l
  | l :: rest => l ++ '\n' :: joinLines rest

/-- The empty-buffer collapse performed after a line deletion:
`if (this.lines.length === 0) this.lines = ['']`. -/
def collapseEmpty (l : List Line) : List Line :=
  if l.isEmpty then [[]] else l

/-- The recognised-motion core of `handleDeleteMotion`:
`some (new editor, deletedContent, numLinesDeleted)`, or `none` for an
unknown motion (which cancels the pending delete). -/
def dmCore (key : String) (ed : ViEditor) : Option (ViEditor × Line × Nat) :=
  if key = "d" then
    let deleted := curLine ed
    let lines1 := removeCount ed.lines ed.cursorRow 1
    let lines2 := collapseEmpty lines1
    let row := if ed.cursorRow ≥ lines2.length then lines2.length - 1 else ed.cursorRow
    some ({ ed with lines := lines2, cursorRow := row, cursorCol := 0 }, deleted, 1)
  else if key = "j" || key = "ArrowDown" then
    if ed.cursorRow < ed.lines.length - 1 then
      let deleted := curLine ed ++ '\n' :: ed.lines.getD (ed.cursorRow + 1) []
      let lines1 := removeCount ed.lines ed.cursorRow 2
      let lines2 := collapseEmpty lines1
      let row := if ed.cursorRow ≥ lines2.length then lines2.length - 1 else ed.cursorRow
      some ({ ed with lines := lines2, cursorRow := row, cursorCol := 0 }, deleted, 2)
    else
      let deleted := curLine ed
      let lines1 := removeCount ed.lines ed.cursorRow 1
      let lines2 := collapseEmpty lines1
      let row := if ed.cursorRow ≥ lines2.length then lines2.length - 1 else ed.cursorRow
      some ({ ed with lines := lines2, cursorRow := row, cursorCol := 0 }, deleted, 1)
  else if key = "k" || key = "ArrowUp" then
    if ed.cursorRow > 0 then
      let deleted := ed.lines.getD (ed.cursorRow - 1) [] ++ '\n' :: curLine ed
      let lines1 := removeCount ed.lines (ed.cursorRow - 1) 2
      let row1 := ed.cursorRow - 1
      let lines2 := collapseEmpty lines1
      let row2 := if lines1.isEmpty then 0 else row1
      let row3 := if row2 ≥ lines2.length then lines2.length - 1 else row2
      some ({ ed with lines := lines2, cursorRow := row3, cursorCol := 0 }, deleted, 2)
    else
      let deleted := curLine ed
      let lines1 := removeCount ed.lines ed.cursorRow 1
      let lines2 := collapseEmpty lines1
      some ({ ed with lines := lines2, cursorCol := 0 }, deleted, 1)
  else if key = "$" then
    let deleted := (curLine ed).drop ed.cursorCol
    some ({ ed with lines := ed.lines.set ed.cursorRow ((curLine ed).take ed.cursorCol) },
      deleted, 0)
  else if key = "0" then
    let deleted := (curLine ed).take ed.cursorCol
    some ({ ed with lines := ed.lines.set ed.cursorRow ((curLine ed).drop ed.cursorCol)
                    cursorCol := 0 }, deleted, 0)
  else if key = "w" then
    let line := curLine ed
    let remaining := line.drop ed.cursorCol
    match remaining with
    | [] => some (ed, [], 0)
    | c :: _ =>
      if isWsChar c then some (ed, [], 0)
      else
        let word := remaining.takeWhile (fun x => !isWsChar x)
        let ws := (remaining.dropWhile (fun x => !isWsChar x)).takeWhile isWsChar
        let m := word ++ ws
        some ({ ed with lines := (ed.lines.set ed.cursorRow
                (line.take ed.cursorCol ++ line.drop (ed.cursorCol + m.length))) }, m, 0)
  else if key = "l" || key = "ArrowRight" then
    let line := curLine ed
    if ed.cursorCol < line.length then
      some ({ ed with lines := (ed.lines.set ed.cursorRow
              (line.take ed.cursorCol ++ line.drop (ed.cursorCol + 1))) },
        [line.getD ed.cursorCol ' '], 0)
    else some (ed, [], 0)
  else if key = "h" || key = "ArrowLeft" then
    let line := curLine ed
    if ed.cursorCol > 0 then
      some ({ ed with lines := (ed.lines.set ed.cursorRow
                        (line.take (ed.cursorCol - 1) ++ line.drop ed.cursorCol))
                      cursorCol := ed.cursorCol - 1 },
        [line.getD (ed.cursorCol - 1) ' '], 0)
    else some (ed, [], 0)
  else none

/-- `handleDeleteMotion(key)`: run the motion, then store a nonempty deleted
text in the yank buffer, set `modified` and the status message, and clear the
pending-motion buffer in every case. -/
def handleDeleteMotion (key : String) (ed : ViEditor) : ViEditor :=
  match dmCore key ed with
  | none => { ed with normalModeBuffer := "" }
  | some (ed', deleted, numLinesDeleted) =>
    let ed'' :=
      if deleted ≠ [] then
        { ed' with
          yankBuffer := deleted
          modified := true
          message :=
            if numLinesDeleted > 0 then
              toString numLinesDeleted ++ " line" ++
                (if numLinesDeleted > 1 then "s" else "") ++ " deleted"
            else "deleted" }
      else ed'
    { ed'' with normalModeBuffer := "" }

/-- `handleNormalMode(e)`. -/
def handleNormalMode (e : KeyEvent) (ed : ViEditor) : ViEditor :=
  let key := e.key
  if ed.normalModeBuffer = "d" then handleDeleteMotion key ed
  else
    let ed := { ed with normalModeBuffer := "" }
    if key = "h" || key = "ArrowLeft" then
      { ed with cursorCol := ed.cursorCol - 1 }
    else if key = "j" || key = "ArrowDown" then
      let row := min (ed.lines.length - 1) (ed.cursorRow + 1)
      { ed with cursorRow := row,
                cursorCol := min ed.cursorCol (ed.lines.getD row []).length }
    else if key = "k" || key = "ArrowUp" then
      let row := ed.cursorRow - 1
      { ed with cursorRow := row,
                cursorCol := min ed.cursorCol (ed.lines.getD row []).length }
    else if key = "l" || key = "ArrowRight" then
      { ed with cursorCol := min (curLine ed).length (ed.cursorCol + 1) }
    else if key = "0" then { ed with cursorCol := 0 }
    else if key = "$" then { ed with cursorCol := (curLine ed).length }
    else if key = "g" && e.shiftKey then
      { ed with cursorRow := ed.lines.length - 1 }
    else if key = "i" then { ed with mode := .insert }
    else if key = "a" then
      { ed with cursorCol := min (curLine ed).length (ed.cursorCol + 1), mode := .insert }
    else if key = "o" then
      { ed with lines := (insertAt ed.lines (ed.cursorRow + 1) [])
                cursorRow := ed.cursorRow + 1
                cursorCol := 0
                mode := .insert
                modified := true }
    else if key = "O" && e.shiftKey then
      { ed with lines := (insertAt ed.lines ed.cursorRow [])
                cursorCol := 0
                mode := .insert
                modified := true }
    else if key = "x" then
      if ed.cursorCol < (curLine ed).length then
        { ed with lines := (ed.lines.set ed.cursorRow
                    ((curLine ed).take ed.cursorCol ++ (curLine ed).drop (ed.cursorCol + 1)))
                  modified := true }
      else ed
    else if key = "d" && e.shiftKey then
      { ed with lines := (ed.lines.set ed.cursorRow ((curLine ed).take ed.cursorCol))
                modified := true }
    else if key = "d" && !e.shiftKey then { ed with normalModeBuffer := "d" }
    else if key = "y" && e.shiftKey then
      { ed with yankBuffer := curLine ed, message := "yanked line" }
    else if key = "p" then
      if ed.yankBuffer ≠ [] then
        { ed with lines := (insertAt ed.lines (ed.cursorRow + 1) ed.yankBuffer)
                  cursorRow := ed.cursorRow + 1
                  modified := true }
      else ed
    else if key = ":" then { ed with mode := .command, commandBuffer := "" }
    else ed

/-- `handleInsertMode(e)`. -/
def handleInsertMode (e : KeyEvent) (ed : ViEditor) : ViEditor :=
  let key := e.key
  if key = "Escape" then
    { ed with mode := .normal, cursorCol := ed.cursorCol - 1 }
  else if key = "Enter" then
    let line := curLine ed
    let before := line.take ed.cursorCol
    let after := line.drop ed.cursorCol
    { ed with lines := (insertAt (ed.lines.set ed.cursorRow before) (ed.cursorRow + 1) after)
              cursorRow := ed.cursorRow + 1
              cursorCol := 0
              modified := true }
  else if key = "Backspace" then
    if ed.cursorCol > 0 then
      let line := curLine ed
      { ed with lines := (ed.lines.set ed.cursorRow
                  (line.take (ed.cursorCol - 1) ++ line.drop ed.cursorCol))
                cursorCol := ed.cursorCol - 1
                modified := true }
    else if ed.cursorRow > 0 then
      let currentLine := curLine ed
      let prev := ed.lines.getD (ed.cursorRow - 1) []
      { ed with cursorRow := ed.cursorRow - 1
                cursorCol := prev.length
                lines := (removeCount (ed.lines.set (ed.cursorRow - 1) (prev ++ currentLine))
                  ed.cursorRow 1)
                modified := true }
    else ed
  else
    match key.data, e.ctrlKey, e.metaKey with
    | [c], false, false =>
      let line := curLine ed
      { ed with lines := (ed.lines.set ed.cursorRow
                  (line.take ed.cursorCol ++ c :: line.drop ed.cursorCol))
                cursorCol := ed.cursorCol + 1
                modified := true }
    | _, _, _ => ed

/-- `close()`: detach handlers and notify the host (modelled by the flag). -/
def closeEditor (ed : ViEditor) : ViEditor :=
  { ed with closed := true }

/-- `save()`: invoke the save callback with the joined buffer, clear
`modified`. -/
def saveEditor (ed : ViEditor) : ViEditor :=
  { ed with savedContent := some (joinLines ed.lines), modified := false }

/-- `executeCommand(cmd)` of command mode. -/
def executeEditorCommand (cmd : String) (ed : ViEditor) : ViEditor :=
  if cmd = "w" then
    { saveEditor ed with
      message := "\"" ++ ed.filename ++ "\" " ++ toString ed.lines.length ++ "L written"
      mode := .normal }
  else if cmd = "q" then
    if ed.modified then
      { ed with message := "No write since last change (add ! to override)", mode := .normal }
    else closeEditor ed
  else if cmd = "q!" then closeEditor ed
  else if cmd = "wq" || cmd = "x" then closeEditor (saveEditor ed)
  else { ed with message := "Not an editor command: " ++ cmd, mode := .normal }

/-- `handleCommandMode(e)`. -/
def handleCommandMode (e : KeyEvent) (ed : ViEditor) : ViEditor :=
  let key := e.key
  if key = "Escape" then { ed with mode := .normal, commandBuffer := "" }
  else if key = "Enter" then
    let ed' := executeEditorCommand ed.commandBuffer ed
    { ed' with commandBuffer := "" }
  else if key = "Backspace" then
    let cb : String := ⟨ed.commandBuffer.data.dropLast⟩
    if cb = "" then { ed with commandBuffer := cb, mode := .normal }
    else { ed with commandBuffer := cb }
  else
    match key.data, e.ctrlKey, e.metaKey with
    | [_], false, false => { ed with commandBuffer := ed.commandBuffer ++ key }
    | _, _, _ => ed

/-- `handleKey(e)`: clear the transient message, then dispatch on the mode. -/
def handleKey (e : KeyEvent) (ed : ViEditor) : ViEditor :=
  let ed := { ed with message := "" }
  match ed.mode with
  | .normal => handleNormalMode e ed
  | .insert => handleInsertMode e ed
  | .command => handleCommandMode e ed

/-- Feed a sequence of key events. -/
def handleKeys (ed : ViEditor) : List KeyEvent → ViEditor
  | [] => ed
  | e :: es => handleKeys (handleKey e ed) es

/-- An unmodified keystroke. -/
def nk (k : String) : KeyEvent := ⟨k, false, false, false⟩

/-- A shifted keystroke. -/
def sk (k : String) : KeyEvent := ⟨k, true, false, false⟩

/-!
## Definitions written from the spec's words (for refinement comparisons)

The two definitions below are NOT translated from the source: they transcribe
the spec's own description of wildcard expansion (§4.4 step 5) and of the
pipe filter (§4.4 step 7), to be proved equal to the source-translated
functions. -/

/-- Spec §4.4 step 5: "for each argument containing `*` or `?` […] matched
against entry names of the current directory only; if it contains at least
one match, replace the single argument with all matches (order = directory
enumeration order, not sorted); if zero matches, leave the literal argument
unchanged (not an error)." -/
def expandWildcardsSpecDesc (st : ShellState) (args : List String) : List String :=
  (args.map (fun arg =>
    if strContainsChar arg '*' || strContainsChar arg '?' then
      let entryNames : List String :=
        match getNode st st.currentPath with
        | some (.dir entries) => entries.map Prod.fst
        | _ => []
      let matching := entryNames.filter (fun name => wtestName arg name)
      if matching = [] then [arg] else matching
    else [arg])).flatten

/-- Spec §4.4 step 7: "split output on newlines, keep/drop lines by substring
containment test against the pattern (case-folded if `-i`), inverted if `-v`;
rejoin with newline; if the result ends with a double newline, trim one
trailing newline." -/
def grepFilterSpecDesc (pattern : String) (flags : GrepFlags) (output : String) : String :=
  let keepLine (line : String) : Bool :=
    let hit :=
      if flags.ignoreCase then strIncludes (strToLower line) (strToLower pattern)
      else strIncludes line pattern
    if flags.invert then !hit else hit
  let kept := ((splitChars '\n' output.data).map (fun l => (⟨l⟩ : String))).filter keepLine
  let rejoined := joinSep "\n" kept
  if strEndsWith rejoined "\n\n" then ⟨rejoined.data.dropLast⟩ else rejoined

/-!
## Concrete states used by counterexamples and witnesses -/

/-- A default shell session for user `testuser`. -/
def shellA : ShellState := mkUnixShell none "testuser" "Jan  1 12:00"

/-- A default shell session for user `alice`. -/
def shellAlice : ShellState := mkUnixShell none "alice" "Jan  1 12:00"

/-- A default shell session for `root`. -/
def shellRoot : ShellState := mkUnixShell none "root" "Jan  1 12:00"

/-- A session whose home directory holds `a.txt`, `b.txt`, `c.log`
(the spec's wildcard example, §8). -/
def shellWild : ShellState :=
  mkUnixShell
    (some [("home", .dir [("u", .dir
        [("a.txt", .file "A"), ("b.txt", .file "B"), ("c.log", .file "C")])])])
    "u" "Jan  1 12:00"

/-- The root entries of a tree whose only content is `/home/user` with
entries `d`. -/
def homeFS (d : FSDir) : FSDir := [("home", .dir [("user", .dir d)])]

/-- The state C4 quantifies over: user `user` sitting in `/home/user`, whose
home directory holds the entries `d`. -/
def shellHome (d : FSDir) : ShellState :=
  mkUnixShell (some [("home", .dir [("user", .dir d)])]) "user" "Jan  1 12:00"

/-!
## Invariants of the editor state (claims C8 and C9) -/

/-- The row part of the cursor invariant: a nonempty buffer and
`cursorRow ≤ lines.length - 1` (stated as `<`). -/
def cursorRowOK (ed : ViEditor) : Prop :=
  ed.lines ≠ [] ∧ ed.cursorRow < ed.lines.length

/-- The column part of the cursor invariant:
`cursorCol ≤ lines[cursorRow].length` (`0 ≤` is inherent to `Nat`, mirroring
the `Math.max(0, ·)` clamps of the source). -/
def cursorColOK (ed : ViEditor) : Prop :=
  ed.cursorCol ≤ (curLine ed).length


/-- The state a handler is dispatched in: history pushed, `_isPiped` set. -/
def dispatchState (st : ShellState) (line : String) (piped : Bool) : ShellState :=
  { st with commandHistory := st.commandHistory ++ [line], isPiped := piped }

/-- The keystrokes exempted from column-bound preservation: in normal mode
with no pending delete-motion, `p` (paste) and `Shift+G` (jump to last line)
move the cursor to another line without clamping the column. -/
def colUnsafeKey (ed : ViEditor) (e : KeyEvent) : Prop :=
  ed.mode = .normal ∧ ed.normalModeBuffer ≠ "d" ∧
    (e.key = "p" ∨ (e.key = "g" ∧ e.shiftKey = true))

end UnixShellJS

/-!
# Theorems

Helper lemmas first, then one theorem per claim (with its counterexample and
witness where required).
-/

namespace UnixShellJS

/-- `startsWith` as an existential over a string suffix. -/
theorem strStartsWith_iff_exists (s p : String) :
    strStartsWith s p = true ↔ ∃ rest, s = p ++ rest := by
  unfold strStartsWith
  rw [List.isPrefixOf_iff_prefix]
  constructor
  · rintro ⟨t, ht⟩
    refine ⟨⟨t⟩, String.ext ?_⟩
    rw [String.data_append]
    exact ht.symm
  · rintro ⟨rest, hrest⟩
    exact ⟨rest.data, by rw [hrest, String.data_append]⟩

/-- The `..`/`.` fold of `resolvePath` keeps an empty accumulator empty when
every incoming segment is `..` (each `..` is a no-op pop on the empty stack). -/
theorem foldDots_nil (l : List String) (h : ∀ s ∈ l, s = "..") :
    l.foldl
      (fun acc part =>
        if part = ".." then acc.dropLast
        else if part ≠ "." then acc ++ [part] else acc)
      ([] : List String) = [] := by
  induction l with
  | nil => rfl
  | cons x xs ih =>
    have hx : x = ".." := h x (List.mem_cons_self x xs)
    rw [List.foldl_cons, hx]
    simp only [if_pos rfl, List.dropLast_nil]
    exact ih (fun s hs => h s (List.mem_cons_of_mem x hs))

/-- C2 (corrected by `c2_resolvePath_counterexample`): `resolvePath` is a total
function (it never throws), but an absolute input such as `/../..` is returned
unchanged rather than normalised to `/`.  The amended claim: (1) an absolute
path (not starting with `~`) is returned as-is, so `resolvePath "/../.."`
is `"/../.."`; (2) for a relative input all of whose segments are `..`,
resolved from currentPath `/`, every `..` is a no-op pop on the empty segment
stack and the result is exactly `/`. -/
theorem c2_resolvePath_amended :
    (∀ st p, strStartsWith p "~" = false → strStartsWith p "/" = true →
      resolvePath st p = p) ∧
    (∀ st p, st.currentPath = "/" → strStartsWith p "~" = false →
      strStartsWith p "/" = false → (∀ s ∈ splitSlash p, s = "..") →
      resolvePath st p = "/") := by
  constructor
  · intro st p h1 h2
    simp [resolvePath, h1, h2]
  · intro st p hcp h1 h2 h3
    simp only [resolvePath, h1, h2, hcp, Bool.false_eq_true, if_false]
    rw [show splitSlash "/" = [] from rfl, foldDots_nil _ h3]
    rfl

/-- C2, counterexample to the claim as stated: resolving `/../..` yields
`/../..`, not `/` (the absolute-path branch returns its input as-is). -/
theorem c2_resolvePath_counterexample :
    resolvePath shellA "/../.." = "/../.." ∧ resolvePath shellA "/../.." ≠ "/" := by
  decide

/-- C2, witness.  -/
theorem c2_resolvePath_witness :
    resolvePath shellA "/../.." = "/../.." ∧
    resolvePath { shellA with currentPath := "/" } "../.." = "/" :=
  ⟨c2_resolvePath_amended.1 shellA "/../.." (by decide) (by decide),
   c2_resolvePath_amended.2 { shellA with currentPath := "/" } "../.." rfl
     (by decide) (by decide) (by decide)⟩

/-- C1 (corrected by `c1_canWrite_counterexample`): `canWrite` is `true`
unconditionally for `root`; for a non-root user `U` it is `true` iff the
resolved path has the *string* `"/home/" ++ U` as a plain prefix — i.e. iff it
equals `/home/U` followed by an arbitrary (possibly empty, possibly
not-slash-led) suffix.  This is weaker than the claim's "equals `/home/U` or
starts with `/home/U/`": a sibling home like `/home/alicebob` is also
writable by `alice`. -/
theorem c1_canWrite_amended :
    ∀ st p, (st.currentUser = "root" → canWrite st p = true) ∧
      (st.currentUser ≠ "root" →
        (canWrite st p = true ↔
          ∃ rest, resolvePath st p = "/home/" ++ st.currentUser ++ rest)) := by
  intro st p
  constructor
  · intro h
    simp [canWrite, h]
  · intro h
    simp only [canWrite, if_neg h]
    exact strStartsWith_iff_exists _ _

/-- C1, counterexample to the claim as stated: with `currentUser = "alice"`,
`canWrite "/home/alicebob"` is `true`, although the resolved path neither
equals `/home/alice` nor starts with `/home/alice/`. -/
theorem c1_canWrite_counterexample :
    canWrite shellAlice "/home/alicebob" = true ∧
    resolvePath shellAlice "/home/alicebob" ≠ "/home/alice" ∧
    strStartsWith (resolvePath shellAlice "/home/alicebob") "/home/alice/" = false := by
  decide

/-- C1, witness. -/
theorem c1_canWrite_witness :
    canWrite shellRoot "/etc/passwd" = true ∧
    (canWrite shellAlice "/home/alicebob" = true ↔
      ∃ rest, resolvePath shellAlice "/home/alicebob" = "/home/" ++ "alice" ++ rest) :=
  ⟨(c1_canWrite_amended shellRoot "/etc/passwd").1 rfl,
   (c1_canWrite_amended shellAlice "/home/alicebob").2 (by decide)⟩

/-- The wildcard loop, generalized over the accumulated argument list: it
appends, per argument, exactly what the spec's description prescribes. -/
theorem expandWildcards_foldl (st : ShellState) (args : List String) (acc : List String) :
    args.foldl
      (fun expanded arg =>
        if strContainsChar arg '*' || strContainsChar arg '?' then
          match getNode st st.currentPath with
          | some (.dir entries) =>
            let matched := (entries.map Prod.fst).filter (fun name => wtestName arg name)
            if matched ≠ [] then expanded ++ matched else expanded ++ [arg]
          | _ => expanded ++ [arg]
        else expanded ++ [arg])
      acc = acc ++ expandWildcardsSpecDesc st args := by
  induction args generalizing acc with
  | nil => simp [expandWildcardsSpecDesc]
  | cons a rest ih =>
    rw [List.foldl_cons, ih]
    unfold expandWildcardsSpecDesc
    simp only [List.map_cons, List.flatten_cons]
    by_cases h1 : strContainsChar a '*' || strContainsChar a '?'
    · simp only [h1, if_true]
      cases hg : getNode st st.currentPath with
      | none => simp [List.append_assoc]
      | some node =>
        cases node with
        | file content => simp [List.append_assoc]
        | dir entries =>
          by_cases h2 : (entries.map Prod.fst).filter (fun name => wtestName a name) = []
          · simp [h2, List.append_assoc]
          · simp [h2, List.append_assoc]
    · simp [h1, List.append_assoc]

/-- C6 (confirmed): `expandWildcards` behaves exactly as the spec describes —
each argument containing `*` or `?` is matched, via the anchored pattern
obtained by `*`→`.*` and `?`→`.`, against the entry names of the current
directory only; with at least one match the argument is replaced in place by
all matching names in directory enumeration order, otherwise the literal
argument passes through unchanged.  The concrete conjuncts instantiate the
spec's §8 example directory `{a.txt, b.txt, c.log}`: a match replaces the
argument in enumeration order, a zero-match pattern survives literally with
no error. -/
theorem c6_expandWildcards :
    (∀ st args, expandWildcards st args = expandWildcardsSpecDesc st args) ∧
    expandWildcards shellWild ["*.txt"] = ["a.txt", "b.txt"] ∧
    expandWildcards shellWild ["nomatch*", "?.log"] = ["nomatch*", "c.log"] := by
  refine ⟨?_, by decide, by decide⟩
  intro st args
  unfold expandWildcards
  rw [expandWildcards_foldl]
  simp

/-- C7 (confirmed): the grep filter of `execute` is exactly the spec's
description (split on newlines, substring containment with lower-casing under
`-i` and inversion under `-v`, rejoin, and removal of exactly one trailing
newline when the result ends in two); moreover on the spec's §8 example the
pipe `ls | grep -i readme` detects pattern `readme` with `-i`, executes only
`ls`, and yields exactly the `README.md` line. -/
theorem c7_grepFilter :
    (∀ pattern flags output,
      applyGrepFilter pattern flags output = grepFilterSpecDesc pattern flags output) ∧
    extractGrep "ls | grep -i readme" =
      (some ("readme", ⟨true, false⟩), "ls", "ls | grep -i readme") ∧
    (execute shellA "ls | grep -i readme").2 = "README.md" := by
  refine ⟨?_, by decide, by decide⟩
  intro pattern flags output
  rfl

/-!
### Per-handler state lemmas

Used by C3 (history) and C10 (PWD/currentPath): each handler either leaves
the state's environment and current path untouched (possibly changing the
filesystem), or re-establishes `PWD = currentPath`; none touches the command
history. -/

/-- `cd` leaves the history alone and, unless it returns the state unchanged,
re-establishes `PWD = currentPath`. -/
theorem cmd_cd_inv (st : ShellState) (args : List String) :
    (cmd_cd st args).1.commandHistory = st.commandHistory ∧
    ((cmd_cd st args).1 = st ∨
      (cmd_cd st args).1.environment.PWD = (cmd_cd st args).1.currentPath) := by
  unfold cmd_cd
  rcases args with _ | ⟨a, rest⟩
  · exact ⟨rfl, Or.inr rfl⟩
  · dsimp only
    split
    · exact ⟨rfl, Or.inr rfl⟩
    · split
      · exact ⟨rfl, Or.inl rfl⟩
      · exact ⟨rfl, Or.inl rfl⟩
      · exact ⟨rfl, Or.inr rfl⟩

/-- `su` always writes `PWD := currentPath` (which it preserves). -/
theorem cmd_su_inv (st : ShellState) (args : List String) :
    (cmd_su st args).1.commandHistory = st.commandHistory ∧
    (cmd_su st args).1.environment.PWD = (cmd_su st args).1.currentPath :=
  ⟨rfl, rfl⟩

/-- `exit` either returns the state unchanged (empty stack) or restores a
session and writes `PWD := currentPath`. -/
theorem cmd_exit_inv (st : ShellState) :
    (cmd_exit st).1.commandHistory = st.commandHistory ∧
    ((cmd_exit st).1 = st ∨
      (cmd_exit st).1.environment.PWD = (cmd_exit st).1.currentPath) := by
  unfold cmd_exit
  split
  · exact ⟨rfl, Or.inl rfl⟩
  · exact ⟨rfl, Or.inr rfl⟩

/-- `mkdir` changes at most the filesystem. -/
theorem cmd_mkdir_shape (st : ShellState) (args : List String) :
    ∃ fs, (cmd_mkdir st args).1 = { st with fileSystem := fs } := by
  unfold cmd_mkdir
  rcases args with _ | ⟨a, rest⟩
  · exact ⟨st.fileSystem, rfl⟩
  · dsimp only
    split
    · exact ⟨st.fileSystem, rfl⟩
    · split
      · exact ⟨st.fileSystem, rfl⟩
      · split
        · exact ⟨st.fileSystem, rfl⟩
        · exact ⟨st.fileSystem, rfl⟩
        · split
          · exact ⟨st.fileSystem, rfl⟩
          · exact ⟨_, rfl⟩

/-- `touch` changes at most the filesystem. -/
theorem cmd_touch_shape (st : ShellState) (args : List String) :
    ∃ fs, (cmd_touch st args).1 = { st with fileSystem := fs } := by
  unfold cmd_touch
  rcases args with _ | ⟨a, rest⟩
  · exact ⟨st.fileSystem, rfl⟩
  · dsimp only
    split
    · exact ⟨st.fileSystem, rfl⟩
    · split
      · exact ⟨st.fileSystem, rfl⟩
      · split
        · exact ⟨st.fileSystem, rfl⟩
        · exact ⟨st.fileSystem, rfl⟩
        · split
          · exact ⟨st.fileSystem, rfl⟩
          · exact ⟨_, rfl⟩

/-- One `rm` target changes at most the filesystem. -/
theorem rmTarget_shape (recursive force verbose : Bool) (st : ShellState) (target : String) :
    ∃ fs, (rmTarget recursive force verbose st target).1 = { st with fileSystem := fs } := by
  unfold rmTarget
  dsimp only
  split
  · exact ⟨st.fileSystem, rfl⟩
  · split
    · split
      · split
        · exact ⟨st.fileSystem, rfl⟩
        · exact ⟨st.fileSystem, rfl⟩
      · split
        · split
          · exact ⟨st.fileSystem, rfl⟩
          · exact ⟨st.fileSystem, rfl⟩
        · exact ⟨_, rfl⟩
      · exact ⟨_, rfl⟩
    · split
      · exact ⟨st.fileSystem, rfl⟩
      · exact ⟨st.fileSystem, rfl⟩

/-- The `rm` target fold changes at most the filesystem of its accumulator
state. -/
theorem rmFold_shape (recursive force verbose : Bool) (targets : List String)
    (acc : ShellState × List String × List String) :
    ∃ fs,
      (targets.foldl
        (fun (acc : ShellState × List String × List String) target =>
          let r := rmTarget recursive force verbose acc.1 target
          (r.1, acc.2.1 ++ r.2.1.toList, acc.2.2 ++ r.2.2.toList))
        acc).1 = { acc.1 with fileSystem := fs } := by
  induction targets generalizing acc with
  | nil => exact ⟨acc.1.fileSystem, rfl⟩
  | cons t rest ih =>
    rw [List.foldl_cons]
    obtain ⟨fs1, h1⟩ := rmTarget_shape recursive force verbose acc.1 t
    obtain ⟨fs2, h2⟩ := ih ((rmTarget recursive force verbose acc.1 t).1,
      acc.2.1 ++ (rmTarget recursive force verbose acc.1 t).2.1.toList,
      acc.2.2 ++ (rmTarget recursive force verbose acc.1 t).2.2.toList)
    refine ⟨fs2, ?_⟩
    rw [h2, h1]

/-- `rm` changes at most the filesystem. -/
theorem cmd_rm_shape (st : ShellState) (args : List String) :
    ∃ fs, (cmd_rm st args).1 = { st with fileSystem := fs } := by
  unfold cmd_rm
  rcases args with _ | ⟨a, rest⟩
  · exact ⟨st.fileSystem, rfl⟩
  · dsimp only
    split
    · exact ⟨st.fileSystem, rfl⟩
    · split
      · exact ⟨st.fileSystem, rfl⟩
      · exact rmFold_shape _ _ _ _ _

/-- `writeToFile` changes at most the filesystem. -/
theorem writeToFile_shape (st : ShellState) (filePath content : String) (mode : RMode) :
    ∃ fs, (writeToFile st filePath content mode).1 = { st with fileSystem := fs } := by
  unfold writeToFile
  dsimp only
  split
  · exact ⟨st.fileSystem, rfl⟩
  · exact ⟨st.fileSystem, rfl⟩
  · split
    · exact ⟨st.fileSystem, rfl⟩
    · exact ⟨_, rfl⟩
    · exact ⟨_, rfl⟩

set_option maxHeartbeats 1000000 in
/-- Master lemma for the dispatcher: a dispatched handler never touches the
command history, and either re-establishes `PWD = currentPath` or leaves
environment and current path exactly as they were. -/
theorem runCommandF_state (fuel : Nat) :
    ∀ (c : String) (args : List String) (st st' : ShellState) (out : CmdOut),
      runCommandF fuel c args st = some (st', out) →
      st'.commandHistory = st.commandHistory ∧
      (st'.environment.PWD = st'.currentPath ∨
        (st'.environment = st.environment ∧ st'.currentPath = st.currentPath)) := by
  induction fuel with
  | zero =>
    intro c args st st' out h
    exact Option.noConfusion h
  | succ n ih =>
    intro c args st st' out h
    rw [show runCommandF (n + 1) c args st = runCommandStep (runCommandF n) c args st from rfl,
      runCommandStep.eq_def] at h
    by_cases hc0 : c = "help"
    · rw [if_pos hc0] at h
      cases h; exact ⟨rfl, Or.inr ⟨rfl, rfl⟩⟩
    rw [if_neg hc0] at h
    by_cases hc1 : c = "ls"
    · rw [if_pos hc1] at h
      cases h; exact ⟨rfl, Or.inr ⟨rfl, rfl⟩⟩
    rw [if_neg hc1] at h
    by_cases hc2 : c = "cd"
    · rw [if_pos hc2] at h
      cases h
      obtain ⟨p1, p2⟩ := cmd_cd_inv st args
      refine ⟨p1, ?_⟩
      rcases p2 with p2 | p2
      · rw [p2]; exact Or.inr ⟨rfl, rfl⟩
      · exact Or.inl p2
    rw [if_neg hc2] at h
    by_cases hc3 : c = "pwd"
    · rw [if_pos hc3] at h
      cases h; exact ⟨rfl, Or.inr ⟨rfl, rfl⟩⟩
    rw [if_neg hc3] at h
    by_cases hc4 : c = "cat"
    · rw [if_pos hc4] at h
      cases h; exact ⟨rfl, Or.inr ⟨rfl, rfl⟩⟩
    rw [if_neg hc4] at h
    by_cases hc5 : c = "echo"
    · rw [if_pos hc5] at h
      cases h; exact ⟨rfl, Or.inr ⟨rfl, rfl⟩⟩
    rw [if_neg hc5] at h
    by_cases hc6 : c = "clear"
    · rw [if_pos hc6] at h
      cases h; exact ⟨rfl, Or.inr ⟨rfl, rfl⟩⟩
    rw [if_neg hc6] at h
    by_cases hc7 : c = "whoami"
    · rw [if_pos hc7] at h
      cases h; exact ⟨rfl, Or.inr ⟨rfl, rfl⟩⟩
    rw [if_neg hc7] at h
    by_cases hc8 : c = "date"
    · rw [if_pos hc8] at h
      cases h; exact ⟨rfl, Or.inr ⟨rfl, rfl⟩⟩
    rw [if_neg hc8] at h
    by_cases hc9 : c = "uname"
    · rw [if_pos hc9] at h
      cases h; exact ⟨rfl, Or.inr ⟨rfl, rfl⟩⟩
    rw [if_neg hc9] at h
    by_cases hc10 : c = "env"
    · rw [if_pos hc10] at h
      cases h; exact ⟨rfl, Or.inr ⟨rfl, rfl⟩⟩
    rw [if_neg hc10] at h
    by_cases hc11 : c = "history"
    · rw [if_pos hc11] at h
      cases h; exact ⟨rfl, Or.inr ⟨rfl, rfl⟩⟩
    rw [if_neg hc11] at h
    by_cases hc12 : c = "mkdir"
    · rw [if_pos hc12] at h
      cases h
      obtain ⟨fs, hfs⟩ := cmd_mkdir_shape st args
      rw [hfs]
      exact ⟨rfl, Or.inr ⟨rfl, rfl⟩⟩
    rw [if_neg hc12] at h
    by_cases hc13 : c = "touch"
    · rw [if_pos hc13] at h
      cases h
      obtain ⟨fs, hfs⟩ := cmd_touch_shape st args
      rw [hfs]
      exact ⟨rfl, Or.inr ⟨rfl, rfl⟩⟩
    rw [if_neg hc13] at h
    by_cases hc14 : c = "rm"
    · rw [if_pos hc14] at h
      cases h
      obtain ⟨fs, hfs⟩ := cmd_rm_shape st args
      rw [hfs]
      exact ⟨rfl, Or.inr ⟨rfl, rfl⟩⟩
    rw [if_neg hc14] at h
    by_cases hc15 : c = "tree"
    · rw [if_pos hc15] at h
      cases h; exact ⟨rfl, Or.inr ⟨rfl, rfl⟩⟩
    rw [if_neg hc15] at h
    by_cases hc16 : c = "ps"
    · rw [if_pos hc16] at h
      cases h; exact ⟨rfl, Or.inr ⟨rfl, rfl⟩⟩
    rw [if_neg hc16] at h
    by_cases hc17 : c = "vi"
    · rw [if_pos hc17] at h
      cases h; exact ⟨rfl, Or.inr ⟨rfl, rfl⟩⟩
    rw [if_neg hc17] at h
    by_cases hc18 : c = "vim"
    · rw [if_pos hc18] at h
      cases h; exact ⟨rfl, Or.inr ⟨rfl, rfl⟩⟩
    rw [if_neg hc18] at h
    by_cases hc19 : c = "su"
    · rw [if_pos hc19] at h
      cases h
      obtain ⟨p1, p2⟩ := cmd_su_inv st args
      exact ⟨p1, Or.inl p2⟩
    rw [if_neg hc19] at h
    by_cases hc20 : c = "sudo"
    · rw [if_pos hc20] at h
      rcases args with _ | ⟨a, rest⟩
      · cases h; exact ⟨rfl, Or.inr ⟨rfl, rfl⟩⟩
      · dsimp only at h
        by_cases ha : a = "su"
        · rw [if_pos ha] at h
          cases h
          obtain ⟨p1, p2⟩ := cmd_su_inv st rest
          exact ⟨p1, Or.inl p2⟩
        · rw [if_neg ha] at h
          cases hr : runCommandF n a rest st with
          | none => rw [hr] at h; cases h; exact ⟨rfl, Or.inr ⟨rfl, rfl⟩⟩
          | some r =>
            rw [hr] at h
            cases h
            exact ih a rest st st' out hr
    rw [if_neg hc20] at h
    by_cases hc21 : c = "exit"
    · rw [if_pos hc21] at h
      cases h
      obtain ⟨p1, p2⟩ := cmd_exit_inv st
      refine ⟨p1, ?_⟩
      rcases p2 with p2 | p2
      · rw [p2]; exact Or.inr ⟨rfl, rfl⟩
      · exact Or.inl p2
    rw [if_neg hc21] at h
    exact Option.noConfusion h

/-- Empty or whitespace-only input returns empty output with the state
untouched. -/
theorem execute_blank (st : ShellState) (line : String) (h : jsTrim line = "") :
    execute st line = (st, "") := by
  unfold execute
  rw [if_pos h]

set_option maxHeartbeats 1000000 in
/-- Master lemma for `execute` on non-blank input: the raw line is appended to
the history exactly once, and the final state either satisfies
`PWD = currentPath` or keeps environment and current path exactly as before. -/
theorem execute_state (st : ShellState) (line : String) (h : jsTrim line ≠ "") :
    (execute st line).1.commandHistory = st.commandHistory ++ [line] ∧
    ((execute st line).1.environment.PWD = (execute st line).1.currentPath ∨
      ((execute st line).1.environment = st.environment ∧
       (execute st line).1.currentPath = st.currentPath)) := by
  unfold execute
  rw [if_neg h]
  dsimp only
  split
  · exact ⟨rfl, Or.inr ⟨rfl, rfl⟩⟩
  · rename_i st2 msg heq
    obtain ⟨h1, h2⟩ := runCommandF_state _ _ _ _ _ _ heq
    exact ⟨h1, h2⟩
  · rename_i st2 out heq
    obtain ⟨h1, h2⟩ := runCommandF_state _ _ _ _ _ _ heq
    split
    · split
      · split
        · rename_i st4 err heqw
          obtain ⟨fs4, hfs4⟩ := writeToFile_shape _ _ _ _
          rw [heqw] at hfs4
          dsimp only at hfs4
          rw [hfs4]
          exact ⟨h1, h2⟩
        · rename_i st4 heqw
          obtain ⟨fs4, hfs4⟩ := writeToFile_shape _ _ _ _
          rw [heqw] at hfs4
          dsimp only at hfs4
          rw [hfs4]
          exact ⟨h1, h2⟩
      · exact ⟨h1, h2⟩
    · exact ⟨h1, h2⟩

/-- C3 (confirmed): an empty or whitespace-only line makes `execute` return
the empty string with the whole state (history included) unchanged; any other
line is appended verbatim to `commandHistory` exactly once, before dispatch,
whatever happens later (unknown command, handler fault, filter, redirect). -/
theorem c3_execute_history (st : ShellState) (line : String) :
    (jsTrim line = "" → execute st line = (st, "")) ∧
    (jsTrim line ≠ "" →
      (execute st line).1.commandHistory = st.commandHistory ++ [line]) :=
  ⟨fun h => execute_blank st line h, fun h => (execute_state st line h).1⟩

/-- C3, witness: a whitespace-only line and a normal line on a concrete
session. -/
theorem c3_execute_history_witness :
    execute shellA "   " = (shellA, "") ∧
    (execute shellA "mkdir x").1.commandHistory = shellA.commandHistory ++ ["mkdir x"] :=
  ⟨(c3_execute_history shellA "   ").1 (by decide),
   (c3_execute_history shellA "mkdir x").2 (by decide)⟩

set_option maxHeartbeats 1000000 in
/-- Dispatching any command other than `cd`, `exit` and `sudo` (which may
delegate to them) leaves `currentPath` unchanged (`su` keeps the current
directory). -/
theorem runCommand_path (c : String) (args : List String) (st st' : ShellState)
    (out : CmdOut) (hcd : c ≠ "cd") (hex : c ≠ "exit") (hsu : c ≠ "sudo")
    (h : runCommand c args st = some (st', out)) :
    st'.currentPath = st.currentPath := by
  unfold runCommand at h
  rw [show runCommandF (args.length + 1) c args st =
      runCommandStep (runCommandF args.length) c args st from rfl,
    runCommandStep.eq_def] at h
  by_cases hc0 : c = "help"
  · rw [if_pos hc0] at h
    cases h
    rfl
  rw [if_neg hc0] at h
  by_cases hc1 : c = "ls"
  · rw [if_pos hc1] at h
    cases h
    rfl
  rw [if_neg hc1] at h
  by_cases hc2 : c = "cd"
  · exact absurd hc2 hcd
  rw [if_neg hc2] at h
  by_cases hc3 : c = "pwd"
  · rw [if_pos hc3] at h
    cases h
    rfl
  rw [if_neg hc3] at h
  by_cases hc4 : c = "cat"
  · rw [if_pos hc4] at h
    cases h
    rfl
  rw [if_neg hc4] at h
  by_cases hc5 : c = "echo"
  · rw [if_pos hc5] at h
    cases h
    rfl
  rw [if_neg hc5] at h
  by_cases hc6 : c = "clear"
  · rw [if_pos hc6] at h
    cases h
    rfl
  rw [if_neg hc6] at h
  by_cases hc7 : c = "whoami"
  · rw [if_pos hc7] at h
    cases h
    rfl
  rw [if_neg hc7] at h
  by_cases hc8 : c = "date"
  · rw [if_pos hc8] at h
    cases h
    rfl
  rw [if_neg hc8] at h
  by_cases hc9 : c = "uname"
  · rw [if_pos hc9] at h
    cases h
    rfl
  rw [if_neg hc9] at h
  by_cases hc10 : c = "env"
  · rw [if_pos hc10] at h
    cases h
    rfl
  rw [if_neg hc10] at h
  by_cases hc11 : c = "history"
  · rw [if_pos hc11] at h
    cases h
    rfl
  rw [if_neg hc11] at h
  by_cases hc12 : c = "mkdir"
  · rw [if_pos hc12] at h
    cases h
    obtain ⟨fs, hfs⟩ := cmd_mkdir_shape st args
    rw [hfs]
  rw [if_neg hc12] at h
  by_cases hc13 : c = "touch"
  · rw [if_pos hc13] at h
    cases h
    obtain ⟨fs, hfs⟩ := cmd_touch_shape st args
    rw [hfs]
  rw [if_neg hc13] at h
  by_cases hc14 : c = "rm"
  · rw [if_pos hc14] at h
    cases h
    obtain ⟨fs, hfs⟩ := cmd_rm_shape st args
    rw [hfs]
  rw [if_neg hc14] at h
  by_cases hc15 : c = "tree"
  · rw [if_pos hc15] at h
    cases h
    rfl
  rw [if_neg hc15] at h
  by_cases hc16 : c = "ps"
  · rw [if_pos hc16] at h
    cases h
    rfl
  rw [if_neg hc16] at h
  by_cases hc17 : c = "vi"
  · rw [if_pos hc17] at h
    cases h
    rfl
  rw [if_neg hc17] at h
  by_cases hc18 : c = "vim"
  · rw [if_pos hc18] at h
    cases h
    rfl
  rw [if_neg hc18] at h
  by_cases hc19 : c = "su"
  · rw [if_pos hc19] at h
    cases h
    rfl
  rw [if_neg hc19] at h
  by_cases hc20 : c = "sudo"
  · exact absurd hc20 hsu
  rw [if_neg hc20] at h
  by_cases hc21 : c = "exit"
  · exact absurd hc21 hex
  rw [if_neg hc21] at h
  exact Option.noConfusion h

/-- C10 (confirmed): `environment.PWD = currentPath` holds in the freshly
constructed shell and is preserved by every `execute` call; `su` writes
`PWD := currentPath` unconditionally, `cd` and `exit` do so whenever they
change `currentPath`; and dispatching any built-in other than `cd`, `exit`
and `sudo` (which merely delegates to the others) leaves `currentPath`
unchanged. -/
theorem c10_pwd_invariant :
    (∀ fs u clk, (mkUnixShell fs u clk).environment.PWD = (mkUnixShell fs u clk).currentPath) ∧
    (∀ st line, st.environment.PWD = st.currentPath →
      (execute st line).1.environment.PWD = (execute st line).1.currentPath) ∧
    (∀ st args, (cmd_su st args).1.environment.PWD = (cmd_su st args).1.currentPath) ∧
    (∀ st args, (cmd_cd st args).1.currentPath ≠ st.currentPath →
      (cmd_cd st args).1.environment.PWD = (cmd_cd st args).1.currentPath) ∧
    (∀ st, (cmd_exit st).1.currentPath ≠ st.currentPath →
      (cmd_exit st).1.environment.PWD = (cmd_exit st).1.currentPath) ∧
    (∀ c args st st' out, c ≠ "cd" → c ≠ "exit" → c ≠ "sudo" →
      runCommand c args st = some (st', out) → st'.currentPath = st.currentPath) := by
  refine ⟨fun fs u clk => rfl, ?_, fun st args => (cmd_su_inv st args).2, ?_, ?_,
    fun c args st st' out h1 h2 h3 h => runCommand_path c args st st' out h1 h2 h3 h⟩
  · intro st line hInv
    by_cases hb : jsTrim line = ""
    · rw [execute_blank st line hb]
      exact hInv
    · rcases (execute_state st line hb).2 with h | ⟨he, hp⟩
      · exact h
      · rw [he, hp]
        exact hInv
  · intro st args hne
    rcases (cmd_cd_inv st args).2 with h | h
    · exact absurd (congrArg ShellState.currentPath h) hne
    · exact h
  · intro st hne
    rcases (cmd_exit_inv st).2 with h | h
    · exact absurd (congrArg ShellState.currentPath h) hne
    · exact h

/-- C10, witness: the invariant after a concrete `execute`, the three
PWD-writing handlers at inputs where they act, and path preservation for a
dispatched `ls`. -/
theorem c10_pwd_invariant_witness :
    (mkUnixShell none "w" "c").environment.PWD = (mkUnixShell none "w" "c").currentPath ∧
    (execute shellA "cd /").1.environment.PWD = (execute shellA "cd /").1.currentPath ∧
    (cmd_su shellA ["bob"]).1.environment.PWD = (cmd_su shellA ["bob"]).1.currentPath ∧
    (cmd_cd shellA ["/"]).1.environment.PWD = (cmd_cd shellA ["/"]).1.currentPath ∧
    (cmd_exit (cmd_cd (cmd_su shellA ["bob"]).1 ["/"]).1).1.environment.PWD =
      (cmd_exit (cmd_cd (cmd_su shellA ["bob"]).1 ["/"]).1).1.currentPath ∧
    shellA.currentPath = shellA.currentPath :=
  ⟨c10_pwd_invariant.1 none "w" "c",
   c10_pwd_invariant.2.1 shellA "cd /" (by decide),
   c10_pwd_invariant.2.2.1 shellA ["bob"],
   c10_pwd_invariant.2.2.2.1 shellA ["/"] (by decide),
   c10_pwd_invariant.2.2.2.2.1 (cmd_cd (cmd_su shellA ["bob"]).1 ["/"]).1 (by decide),
   c10_pwd_invariant.2.2.2.2.2 "ls" [] shellA shellA (CmdOut.ok (cmd_ls shellA []))
     (by decide) (by decide) (by decide) rfl⟩




theorem splitAtFirst_none (c : Char) (l : List Char) (h : c ∉ l) :
    splitAtFirst c l = none := by
  induction l with
  | nil => rfl
  | cons x xs ih =>
    unfold splitAtFirst
    have hcx : ¬(x = c) := fun hx => h (by rw [← hx]; exact List.mem_cons_self x xs)
    rw [if_neg hcx, ih (fun hm => h (List.mem_cons_of_mem x hm))]
    rfl

theorem tailAppend_none (rest : List Char) (h : '>' ∉ rest) : tailAppend rest = none := by
  unfold tailAppend
  cases hd : rest.dropWhile isWsChar with
  | nil => rfl
  | cons x xs =>
    have hx : x ∈ rest := by
      refine (List.dropWhile_sublist isWsChar (l := rest)).mem ?_
      rw [hd]
      exact List.mem_cons_self x xs
    split
    · rename_i r2 heq
      injection heq with h1 h2
      subst h1
      exact absurd hx h
    · rfl

theorem tailOverwrite_none (rest : List Char) (h : '>' ∉ rest) : tailOverwrite rest = none := by
  unfold tailOverwrite
  cases hd : rest.dropWhile isWsChar with
  | nil => rfl
  | cons x xs =>
    have hx : x ∈ rest := by
      refine (List.dropWhile_sublist isWsChar (l := rest)).mem ?_
      rw [hd]
      exact List.mem_cons_self x xs
    split
    · rename_i r2 heq
      injection heq with h1 h2
      subst h1
      exact absurd hx h
    · rfl

theorem lazyGroups_none (tailf : List Char → Option (List Char))
    (hf : ∀ r : List Char, '>' ∉ r → tailf r = none) :
    ∀ (rest g1 : List Char), '>' ∉ rest → lazyGroups tailf g1 rest = none := by
  intro rest
  induction rest with
  | nil =>
    intro g1 h
    unfold lazyGroups
    rw [hf [] (by simp)]
  | cons c cs ih =>
    intro g1 h
    unfold lazyGroups
    rw [hf (c :: cs) h]
    exact ih (g1 ++ [c]) (fun hm => h (List.mem_cons_of_mem c hm))

theorem jsLazyRedirect_append_none (s : String) (h : '>' ∉ s.data) :
    jsLazyRedirect tailAppend s = none := by
  unfold jsLazyRedirect
  cases hd : s.data with
  | nil => rfl
  | cons c cs =>
    dsimp only
    rw [lazyGroups_none tailAppend tailAppend_none cs [c]
      (fun hm => h (by rw [hd]; exact List.mem_cons_of_mem c hm))]

theorem jsLazyRedirect_overwrite_none (s : String) (h : '>' ∉ s.data) :
    jsLazyRedirect tailOverwrite s = none := by
  unfold jsLazyRedirect
  cases hd : s.data with
  | nil => rfl
  | cons c cs =>
    dsimp only
    rw [lazyGroups_none tailOverwrite tailOverwrite_none cs [c]
      (fun hm => h (by rw [hd]; exact List.mem_cons_of_mem c hm))]

/-- Tokenizing an all-non-whitespace run appends one token. -/
theorem wsTokensAux_single :
    ∀ (l acc : List Char), l ≠ [] → (∀ c ∈ l, isWsChar c = false) →
      wsTokensAux acc l = [acc.reverse ++ l] := by
  intro l
  induction l with
  | nil => intro acc h _; exact absurd rfl h
  | cons c cs ih =>
    intro acc _ hnw
    unfold wsTokensAux
    rw [hnw c (List.mem_cons_self c cs)]
    simp only [Bool.false_eq_true, if_false]
    cases hcs : cs with
    | nil =>
      unfold wsTokensAux
      simp
    | cons d ds =>
      rw [← hcs, ih (c :: acc) (by rw [hcs]; simp)
        (fun x hx => hnw x (List.mem_cons_of_mem c hx))]
      simp

/-- JS trim is the identity on `"su " ++ U` when `U` is a nonempty
whitespace-free word. -/
theorem jsTrim_su (U : String) (hne : U ≠ "")
    (hws : ∀ c ∈ U.data, isWsChar c = false) :
    jsTrim ("su " ++ U) = "su " ++ U := by
  have hdata : ("su " ++ U).data = 's' :: 'u' :: ' ' :: U.data := by
    rw [String.data_append]
    rfl
  apply String.ext
  rw [jsTrim, hdata]
  have h1 : List.dropWhile isWsChar ('s' :: 'u' :: ' ' :: U.data) =
      's' :: 'u' :: ' ' :: U.data := by
    rw [List.dropWhile_cons_of_neg (by decide)]
  rw [h1]
  cases hrev : U.data.reverse with
  | nil =>
    exact absurd (String.ext (by simpa using congrArg List.reverse hrev)) hne
  | cons c l =>
    have hc : c ∈ U.data := by
      rw [← List.mem_reverse, hrev]
      exact List.mem_cons_self c l
    have h2 : ('s' :: 'u' :: ' ' :: U.data).reverse = c :: (l ++ [' ', 'u', 's']) := by
      simp [hrev]
    rw [h2, List.dropWhile_cons_of_neg (by simp [hws c hc]), ← h2]
    simp

/-- `"su U".trim().split(/\\s+/)` is `["su", U]` for a plain word `U`. -/
theorem jsSplitWsTrim_su (U : String) (hne : U ≠ "")
    (hws : ∀ c ∈ U.data, isWsChar c = false) :
    jsSplitWsTrim ("su " ++ U) = ["su", U] := by
  have hdata : ("su " ++ U).data = 's' :: 'u' :: ' ' :: U.data := by
    rw [String.data_append]; rfl
  have hUne : U.data ≠ [] := fun hd => hne (String.ext (hd.trans rfl))
  unfold jsSplitWsTrim
  rw [jsTrim_su U hne hws]
  dsimp only
  rw [hdata]
  rw [if_neg (by simp)]
  unfold wsTokensAux
  rw [show isWsChar 's' = false from rfl]
  simp only [Bool.false_eq_true, if_false]
  unfold wsTokensAux
  rw [show isWsChar 'u' = false from rfl]
  simp only [Bool.false_eq_true, if_false]
  unfold wsTokensAux
  rw [show isWsChar ' ' = true from rfl]
  simp only [if_true]
  rw [show (['u', 's'] : List Char).isEmpty = false from rfl]
  simp only [Bool.false_eq_true, if_false]
  rw [wsTokensAux_single U.data [] hUne hws]
  simp

/-- A singleton wildcard-free argument passes `expandWildcards` unchanged. -/
theorem expandWildcards_single (stX : ShellState) (U : String)
    (hstar : '*' ∉ U.data) (hq : '?' ∉ U.data) :
    expandWildcards stX [U] = [U] := by
  unfold expandWildcards
  rw [List.foldl_cons, List.foldl_nil]
  have h1 : strContainsChar U '*' = false := by
    unfold strContainsChar
    simpa using hstar
  have h2 : strContainsChar U '?' = false := by
    unfold strContainsChar
    simpa using hq
  rw [h1, h2]
  rfl

set_option maxHeartbeats 1000000 in
/-- Executing a line that trims to itself, contains no pipe and no redirect,
and tokenizes to `["su", U]` dispatches `cmd_su` with argument `U`. -/
theorem execute_su_one (st : ShellState) (line U : String)
    (htrim : jsTrim line = line) (hne : line ≠ "")
    (hpipe : splitAtFirst '|' line.data = none)
    (happ : jsLazyRedirect tailAppend line = none)
    (hover : jsLazyRedirect tailOverwrite line = none)
    (htok : jsSplitWsTrim line = ["su", U])
    (hwild : ∀ stX, expandWildcards stX [U] = [U]) :
    execute st line =
      ({ (cmd_su (dispatchState st line false) [U]).1 with isPiped := false },
       (cmd_su (dispatchState st line false) [U]).2) := by
  unfold execute
  rw [htrim, if_neg hne]
  dsimp only
  unfold extractGrep
  rw [hpipe]
  dsimp only
  rw [happ, hover]
  dsimp only
  rw [htok]
  rw [show (["su", U] : List String).headD "" = "su" from rfl,
    show (["su", U] : List String).tail = [U] from rfl, hwild]
  rfl

set_option maxHeartbeats 1000000 in
/-- Executing the literal line `exit` dispatches `cmd_exit`. -/
theorem execute_exit (st : ShellState) :
    execute st "exit" =
      ({ (cmd_exit (dispatchState st "exit" false)).1 with isPiped := false },
       (cmd_exit (dispatchState st "exit" false)).2) := by
  rfl

set_option maxHeartbeats 1000000 in
/-- C5 (confirmed): for every shell state, executing `su U` (for a plain-word
user name `U`: nonempty, free of whitespace and of the `|`, `>`, `*`, `?`
metacharacters the pipeline inspects) followed immediately by `exit` restores
exactly the `currentUser`, `environment.HOME` and `currentPath` the state had
before the `su`; and executing `exit` with an empty user stack returns the
message `exit: no other user session to return to` and leaves `currentUser`,
the environment, `currentPath` and the filesystem unchanged. -/
theorem c5_su_exit :
    (∀ (st : ShellState) (U : String), U ≠ "" →
      (∀ c ∈ U.data, isWsChar c = false ∧ c ≠ '|' ∧ c ≠ '>' ∧ c ≠ '*' ∧ c ≠ '?') →
      ((execute (execute st ("su " ++ U)).1 "exit").1.currentUser = st.currentUser ∧
       (execute (execute st ("su " ++ U)).1 "exit").1.environment.HOME =
         st.environment.HOME ∧
       (execute (execute st ("su " ++ U)).1 "exit").1.currentPath = st.currentPath)) ∧
    (∀ st : ShellState, st.userStack = [] →
      (execute st "exit").2 = "exit: no other user session to return to" ∧
      (execute st "exit").1.currentUser = st.currentUser ∧
      (execute st "exit").1.environment = st.environment ∧
      (execute st "exit").1.currentPath = st.currentPath ∧
      (execute st "exit").1.fileSystem = st.fileSystem) := by
  constructor
  · intro st U hne hall
    have hws : ∀ c ∈ U.data, isWsChar c = false := fun c hc => (hall c hc).1
    have hdata : ("su " ++ U).data = 's' :: 'u' :: ' ' :: U.data := by
      rw [String.data_append]; rfl
    have hlne : ("su " ++ U) ≠ "" := by
      intro hcontra
      have := congrArg String.data hcontra
      rw [hdata] at this
      exact List.noConfusion this
    have hnogt : '>' ∉ ("su " ++ U).data := by
      rw [hdata]
      intro hm
      simp only [List.mem_cons] at hm
      rcases hm with h | h | h | hm
      · exact absurd h (by decide)
      · exact absurd h (by decide)
      · exact absurd h (by decide)
      · exact ((hall '>' hm).2.2.1) rfl
    have h1 := execute_su_one st ("su " ++ U) U
      (jsTrim_su U hne hws) hlne
      (splitAtFirst_none '|' ("su " ++ U).data (by
        rw [hdata]
        intro hm
        simp only [List.mem_cons] at hm
        rcases hm with h | h | h | hm
        · exact absurd h (by decide)
        · exact absurd h (by decide)
        · exact absurd h (by decide)
        · exact ((hall '|' hm).2.1) rfl))
      (jsLazyRedirect_append_none _ hnogt)
      (jsLazyRedirect_overwrite_none _ hnogt)
      (jsSplitWsTrim_su U hne hws)
      (fun stX => expandWildcards_single stX U
        (fun hm => ((hall '*' hm).2.2.2.1) rfl)
        (fun hm => ((hall '?' hm).2.2.2.2) rfl))
    rw [h1, execute_exit]
    have hlast : (dispatchState
        ({ (cmd_su (dispatchState st ("su " ++ U) false) [U]).1 with isPiped := false })
        "exit" false).userStack.getLast? =
        some (UserState.mk st.currentUser st.environment.HOME st.currentPath) := by
      show ((cmd_su (dispatchState st ("su " ++ U) false) [U]).1).userStack.getLast? = _
      rw [show ((cmd_su (dispatchState st ("su " ++ U) false) [U]).1).userStack =
        st.userStack ++ [UserState.mk st.currentUser st.environment.HOME st.currentPath]
        from rfl]
      exact List.getLast?_concat _
    unfold cmd_exit
    rw [hlast]
    exact ⟨rfl, rfl, rfl⟩
  · intro st hstack
    rw [execute_exit]
    have hlast : (dispatchState st "exit" false).userStack.getLast? = none := by
      show st.userStack.getLast? = none
      rw [hstack]
      rfl
    unfold cmd_exit
    rw [hlast]
    exact ⟨rfl, rfl, rfl, rfl, rfl⟩

/-- C5, witness: `su alice` then `exit` on a concrete session, and `exit` on
a fresh session with an empty stack. -/
theorem c5_su_exit_witness :
    ((execute (execute shellA ("su " ++ "alice")).1 "exit").1.currentUser =
        shellA.currentUser ∧
     (execute (execute shellA ("su " ++ "alice")).1 "exit").1.environment.HOME =
        shellA.environment.HOME ∧
     (execute (execute shellA ("su " ++ "alice")).1 "exit").1.currentPath =
        shellA.currentPath) ∧
    ((execute shellA "exit").2 = "exit: no other user session to return to" ∧
     (execute shellA "exit").1.currentUser = shellA.currentUser ∧
     (execute shellA "exit").1.environment = shellA.environment ∧
     (execute shellA "exit").1.currentPath = shellA.currentPath ∧
     (execute shellA "exit").1.fileSystem = shellA.fileSystem) :=
  ⟨c5_su_exit.1 shellA "alice" (by decide) (by decide),
   c5_su_exit.2 shellA rfl⟩




/-- Writing a key makes it readable (JS `obj[k] = v; obj[k]`). -/
theorem lookupEntry_setEntry_self (d : FSDir) (k : String) (v : FSNode) :
    lookupEntry (setEntry d k v) k = some v := by
  induction d with
  | nil => simp [setEntry, lookupEntry]
  | cons e rest ih =>
    obtain ⟨k0, v0⟩ := e
    unfold setEntry
    by_cases hk : k0 = k
    · rw [if_pos hk]
      simp [lookupEntry]
    · rw [if_neg hk]
      unfold lookupEntry
      rw [if_neg hk]
      exact ih

/-- Resolving the relative name `f.txt` from `/home/user`. -/
theorem resolvePath_ftxt (st : ShellState) (hpath : st.currentPath = "/home/user") :
    resolvePath st "f.txt" = "/home/user/f.txt" := by
  simp only [resolvePath, show strStartsWith "f.txt" "~" = false from rfl,
    Bool.false_eq_true, if_false, show strStartsWith "f.txt" "/" = false from rfl, hpath]
  decide

/-- The `/home/user` node of a `homeFS`-shaped tree. -/
theorem getNode_homeUser (d : FSDir) (st : ShellState)
    (hfs : st.fileSystem = homeFS d) :
    getNode st "/home/user" = some (.dir d) := by
  unfold getNode
  rw [hfs]
  rfl

/-- `writeToFile` into `/home/user/f.txt`, by the current state of the entry. -/
theorem writeToFile_home (d : FSDir) (st : ShellState)
    (hfs : st.fileSystem = homeFS d) (hpath : st.currentPath = "/home/user")
    (content : String) (mode : RMode) :
    writeToFile st "f.txt" content mode =
      (match lookupEntry d "f.txt" with
       | some (.dir _) => (st, some "bash: f.txt: Is a directory")
       | some (.file old) =>
         ({ st with fileSystem := homeFS (setEntry d "f.txt"
             (.file (match mode with | .append => old ++ content | .overwrite => content))) },
          none)
       | none =>
         ({ st with fileSystem := homeFS (setEntry d "f.txt" (.file content)) }, none)) := by
  unfold writeToFile
  rw [resolvePath_ftxt st hpath]
  simp only [show splitSlash "/home/user/f.txt" = ["home", "user", "f.txt"] from rfl,
    show (["home", "user", "f.txt"] : List String).getLast? = some "f.txt" from rfl,
    show (["home", "user", "f.txt"] : List String).dropLast = ["home", "user"] from rfl,
    Option.getD_some,
    show ("/" ++ joinSep "/" ["home", "user"] : String) = "/home/user" from rfl]
  rw [getNode_homeUser d st hfs]
  dsimp only
  cases hl : lookupEntry d "f.txt" with
  | none =>
    rw [hfs]
    rfl
  | some node =>
    cases node with
    | file old =>
      cases mode with
      | append => rw [hfs]; rfl
      | overwrite => rw [hfs]; rfl
    | dir entries => rfl

/-- `cat f.txt` from `/home/user`, by the current state of the entry. -/
theorem cmd_cat_home (d : FSDir) (st : ShellState)
    (hfs : st.fileSystem = homeFS d) (hpath : st.currentPath = "/home/user") :
    cmd_cat st ["f.txt"] =
      (match lookupEntry d "f.txt" with
       | none => "cat: f.txt: No such file or directory"
       | some (.file c) => c
       | some (.dir _) => "cat: f.txt: Is a directory") := by
  unfold cmd_cat
  dsimp only
  rw [if_neg (by decide)]
  unfold getNode
  rw [resolvePath_ftxt st hpath,
    show splitSlash "/home/user/f.txt" = ["home", "user", "f.txt"] from rfl, hfs,
    show walkNode (FSNode.dir (homeFS d)) ["home", "user", "f.txt"] =
      walkNode (FSNode.dir d) ["f.txt"] from rfl]
  cases hl : lookupEntry d "f.txt" with
  | none =>
    rw [show walkNode (FSNode.dir d) ["f.txt"] = none from by unfold walkNode; rw [hl]]
    rfl
  | some node =>
    rw [show walkNode (FSNode.dir d) ["f.txt"] = some node from by
      unfold walkNode; rw [hl]; cases node <;> rfl]
    cases node with
    | file c => rfl
    | dir entries => rfl

set_option maxHeartbeats 1000000 in
/-- `execute "cat f.txt"` pushes history and dispatches `cmd_cat`. -/
theorem execute_cat_ftxt (st : ShellState) :
    execute st "cat f.txt" =
      (dispatchState st "cat f.txt" false, cmd_cat st ["f.txt"]) := by
  unfold execute
  rw [if_neg (by decide)]
  dsimp only
  rw [show extractGrep "cat f.txt" = (none, "cat f.txt", "cat f.txt") from by decide]
  dsimp only
  rw [show jsLazyRedirect tailAppend "cat f.txt" = none from by decide,
    show jsLazyRedirect tailOverwrite "cat f.txt" = none from by decide]
  dsimp only
  rw [show jsSplitWsTrim "cat f.txt" = ["cat", "f.txt"] from by decide]
  rw [show (["cat", "f.txt"] : List String).headD "" = "cat" from rfl,
    show (["cat", "f.txt"] : List String).tail = ["f.txt"] from rfl,
    expandWildcards_single _ "f.txt" (by decide) (by decide)]
  rfl


set_option maxHeartbeats 1000000 in
/-- The echo-redirect line that overwrite-creates `/home/user/f.txt`. -/
theorem execute_echo_A_home (d : FSDir) (st : ShellState)
    (hfs : st.fileSystem = homeFS d) (hpath : st.currentPath = "/home/user")
    (hl : lookupEntry d "f.txt" = none) :
    execute st "echo \"A\" > f.txt" =
      ({ dispatchState st "echo \"A\" > f.txt" false with
          fileSystem := homeFS (setEntry d "f.txt" (FSNode.file "A")) }, "") := by
  unfold execute
  rw [if_neg (by decide)]
  dsimp only
  rw [show extractGrep "echo \"A\" > f.txt" = (none, "echo \"A\" > f.txt", "echo \"A\" > f.txt") from by decide]
  dsimp only
  rw [show jsLazyRedirect tailAppend "echo \"A\" > f.txt" = none from by decide]
  dsimp only
  rw [show jsLazyRedirect tailOverwrite "echo \"A\" > f.txt" = some ("echo \"A\"", "f.txt") from by decide]
  dsimp only
  rw [show jsSplitWsTrim (jsTrim "echo \"A\"") = ["echo", "\"A\""] from by decide]
  rw [show (["echo", "\"A\""] : List String).headD "" = "echo" from rfl,
    show (["echo", "\"A\""] : List String).tail = ["\"A\""] from rfl,
    expandWildcards_single _ "\"A\"" (by decide) (by decide)]
  rw [show (∀ stX, runCommand "echo" ["\"A\""] stX = some (stX, CmdOut.ok "A"))
    from fun stX => rfl]
  dsimp only
  rw [if_pos (by decide : jsTrim "f.txt" ≠ "")]
  rw [show jsTrim "f.txt" = "f.txt" from by decide]
  rw [writeToFile_home d
    { st with commandHistory := st.commandHistory ++ ["echo \"A\" > f.txt"], isPiped := false }
    hfs hpath "A" RMode.overwrite]
  rw [hl]
  rfl

set_option maxHeartbeats 1000000 in
/-- The echo-redirect line that overwrites `/home/user/f.txt`. -/
theorem execute_echo_B_home (d : FSDir) (st : ShellState) (old : String)
    (hfs : st.fileSystem = homeFS d) (hpath : st.currentPath = "/home/user")
    (hl : lookupEntry d "f.txt" = some (FSNode.file old)) :
    execute st "echo \"B\" > f.txt" =
      ({ dispatchState st "echo \"B\" > f.txt" false with
          fileSystem := homeFS (setEntry d "f.txt" (FSNode.file "B")) }, "") := by
  unfold execute
  rw [if_neg (by decide)]
  dsimp only
  rw [show extractGrep "echo \"B\" > f.txt" = (none, "echo \"B\" > f.txt", "echo \"B\" > f.txt") from by decide]
  dsimp only
  rw [show jsLazyRedirect tailAppend "echo \"B\" > f.txt" = none from by decide]
  dsimp only
  rw [show jsLazyRedirect tailOverwrite "echo \"B\" > f.txt" = some ("echo \"B\"", "f.txt") from by decide]
  dsimp only
  rw [show jsSplitWsTrim (jsTrim "echo \"B\"") = ["echo", "\"B\""] from by decide]
  rw [show (["echo", "\"B\""] : List String).headD "" = "echo" from rfl,
    show (["echo", "\"B\""] : List String).tail = ["\"B\""] from rfl,
    expandWildcards_single _ "\"B\"" (by decide) (by decide)]
  rw [show (∀ stX, runCommand "echo" ["\"B\""] stX = some (stX, CmdOut.ok "B"))
    from fun stX => rfl]
  dsimp only
  rw [if_pos (by decide : jsTrim "f.txt" ≠ "")]
  rw [show jsTrim "f.txt" = "f.txt" from by decide]
  rw [writeToFile_home d
    { st with commandHistory := st.commandHistory ++ ["echo \"B\" > f.txt"], isPiped := false }
    hfs hpath "B" RMode.overwrite]
  rw [hl]
  rfl

set_option maxHeartbeats 1000000 in
/-- The echo-redirect line that appends to `/home/user/f.txt`. -/
theorem execute_echo_C_home (d : FSDir) (st : ShellState) (old : String)
    (hfs : st.fileSystem = homeFS d) (hpath : st.currentPath = "/home/user")
    (hl : lookupEntry d "f.txt" = some (FSNode.file old)) :
    execute st "echo \"C\" >> f.txt" =
      ({ dispatchState st "echo \"C\" >> f.txt" false with
          fileSystem := homeFS (setEntry d "f.txt" (FSNode.file (old ++ "C"))) }, "") := by
  unfold execute
  rw [if_neg (by decide)]
  dsimp only
  rw [show extractGrep "echo \"C\" >> f.txt" = (none, "echo \"C\" >> f.txt", "echo \"C\" >> f.txt") from by decide]
  dsimp only
  rw [show jsLazyRedirect tailAppend "echo \"C\" >> f.txt" = some ("echo \"C\"", "f.txt") from by decide]
  dsimp only
  rw [show jsSplitWsTrim (jsTrim "echo \"C\"") = ["echo", "\"C\""] from by decide]
  rw [show (["echo", "\"C\""] : List String).headD "" = "echo" from rfl,
    show (["echo", "\"C\""] : List String).tail = ["\"C\""] from rfl,
    expandWildcards_single _ "\"C\"" (by decide) (by decide)]
  rw [show (∀ stX, runCommand "echo" ["\"C\""] stX = some (stX, CmdOut.ok "C"))
    from fun stX => rfl]
  dsimp only
  rw [if_pos (by decide : jsTrim "f.txt" ≠ "")]
  rw [show jsTrim "f.txt" = "f.txt" from by decide]
  rw [writeToFile_home d
    { st with commandHistory := st.commandHistory ++ ["echo \"C\" >> f.txt"], isPiped := false }
    hfs hpath "C" RMode.append]
  rw [hl]
  rfl

set_option maxHeartbeats 1000000 in
/-- C4 (confirmed): in a session whose current directory is the writable
`/home/user` holding arbitrary entries without `f.txt`:
`echo "A" > f.txt` then `cat f.txt` yields exactly `A`; a further
`echo "B" > f.txt` then `cat f.txt` yields exactly `B` (overwrite replaces
the prior content); and a subsequent `echo "C" >> f.txt` then `cat f.txt`
yields exactly `BC` — the append redirect concatenates the new output to the
existing content with no separator between them. -/
theorem c4_redirect_roundtrip :
    ∀ d : FSDir, lookupEntry d "f.txt" = none →
      canWrite (shellHome d) "f.txt" = true ∧
      (executeAll (shellHome d) ["echo \"A\" > f.txt", "cat f.txt"]).2 = "A" ∧
      (executeAll (shellHome d)
        ["echo \"A\" > f.txt", "echo \"B\" > f.txt", "cat f.txt"]).2 = "B" ∧
      (executeAll (shellHome d)
        ["echo \"A\" > f.txt", "echo \"B\" > f.txt", "echo \"C\" >> f.txt",
         "cat f.txt"]).2 = "BC" := by
  intro d hl
  have hshell : (shellHome d).fileSystem = homeFS d := rfl
  have hpath0 : (shellHome d).currentPath = "/home/user" := rfl
  refine ⟨rfl, ?_, ?_, ?_⟩
  · simp only [executeAll]
    rw [execute_echo_A_home d (shellHome d) hshell hpath0 hl]
    rw [execute_cat_ftxt]
    rw [cmd_cat_home (setEntry d "f.txt" (FSNode.file "A")) _ rfl rfl]
    rw [lookupEntry_setEntry_self]
  · simp only [executeAll]
    rw [execute_echo_A_home d (shellHome d) hshell hpath0 hl]
    rw [execute_echo_B_home (setEntry d "f.txt" (FSNode.file "A")) _ "A" rfl rfl
      (lookupEntry_setEntry_self d "f.txt" (FSNode.file "A"))]
    rw [execute_cat_ftxt]
    rw [cmd_cat_home (setEntry (setEntry d "f.txt" (FSNode.file "A")) "f.txt"
      (FSNode.file "B")) _ rfl rfl]
    rw [lookupEntry_setEntry_self]
  · simp only [executeAll]
    rw [execute_echo_A_home d (shellHome d) hshell hpath0 hl]
    rw [execute_echo_B_home (setEntry d "f.txt" (FSNode.file "A")) _ "A" rfl rfl
      (lookupEntry_setEntry_self d "f.txt" (FSNode.file "A"))]
    rw [execute_echo_C_home (setEntry (setEntry d "f.txt" (FSNode.file "A")) "f.txt"
      (FSNode.file "B")) _ "B" rfl rfl
      (lookupEntry_setEntry_self _ "f.txt" (FSNode.file "B"))]
    rw [execute_cat_ftxt]
    rw [cmd_cat_home (setEntry (setEntry (setEntry d "f.txt" (FSNode.file "A")) "f.txt"
      (FSNode.file "B")) "f.txt" (FSNode.file ("B" ++ "C"))) _ rfl rfl]
    rw [lookupEntry_setEntry_self]
    rfl

/-- C4, witness: the round trip on an initially empty home directory. -/
theorem c4_redirect_roundtrip_witness :
    canWrite (shellHome []) "f.txt" = true ∧
    (executeAll (shellHome []) ["echo \"A\" > f.txt", "cat f.txt"]).2 = "A" ∧
    (executeAll (shellHome [])
      ["echo \"A\" > f.txt", "echo \"B\" > f.txt", "cat f.txt"]).2 = "B" ∧
    (executeAll (shellHome [])
      ["echo \"A\" > f.txt", "echo \"B\" > f.txt", "echo \"C\" >> f.txt",
       "cat f.txt"]).2 = "BC" :=
  c4_redirect_roundtrip [] rfl

end UnixShellJS


namespace UnixShellJS

theorem length_insertAt (l : List Line) (i : Nat) (x : Line) :
    (insertAt l i x).length = l.length + 1 := by
  simp only [insertAt, List.length_append, List.length_take, List.length_cons,
    List.length_drop]
  omega

theorem length_removeCount (l : List Line) (i n : Nat) :
    (removeCount l i n).length = min i l.length + (l.length - (i + n)) := by
  simp [removeCount]

theorem set_ne_nil (l : List Line) (i : Nat) (x : Line) (h : l ≠ []) :
    l.set i x ≠ [] := by
  intro hc
  apply h
  have hlen := congrArg List.length hc
  rw [List.length_set] at hlen
  exact List.eq_nil_of_length_eq_zero hlen

theorem ifEmpty_ne_nil (l : List Line) :
    (if l.isEmpty then ([[]] : List Line) else l) ≠ [] := by
  split
  · simp
  · rename_i h
    exact fun hc => h (by simp [hc])

theorem getD_set_self (l : List Line) (i : Nat) (x : Line) (h : i < l.length) :
    (l.set i x).getD i [] = x := by
  simp [List.getD, List.getElem?_set_self, h]

theorem getD_insertAt_self (l : List Line) (i : Nat) (x : Line) (h : i ≤ l.length) :
    (insertAt l i x).getD i [] = x := by
  unfold insertAt
  rw [List.getD, List.get?_eq_getElem?,
    List.getElem?_append_right (by simp [List.length_take])]
  have hz : i - (List.take i l).length = 0 := by
    simp only [List.length_take]
    omega
  rw [hz]
  simp



theorem collapseEmpty_ne_nil (l : List Line) : collapseEmpty l ≠ [] :=
  ifEmpty_ne_nil l

theorem dmCore_ne_nil (key : String) (ed : ViEditor) (h : ed.lines ≠ []) :
    ∀ ed' del n, dmCore key ed = some (ed', del, n) → ed'.lines ≠ [] := by
  intro ed' del n
  unfold dmCore
  by_cases h1 : key = "d"
  · rw [if_pos h1]
    intro hc
    injection hc with hp
    injection hp with ha hb
    subst ha
    exact collapseEmpty_ne_nil _
  rw [if_neg h1]
  by_cases h2 : (decide (key = "j") || decide (key = "ArrowDown")) = true
  · rw [if_pos h2]
    by_cases h2b : ed.cursorRow < ed.lines.length - 1
    · rw [if_pos h2b]
      intro hc
      injection hc with hp
      injection hp with ha hb
      subst ha
      exact collapseEmpty_ne_nil _
    rw [if_neg h2b]
    intro hc
    injection hc with hp
    injection hp with ha hb
    subst ha
    exact collapseEmpty_ne_nil _
  rw [if_neg h2]
  by_cases h3 : (decide (key = "k") || decide (key = "ArrowUp")) = true
  · rw [if_pos h3]
    by_cases h3b : ed.cursorRow > 0
    · rw [if_pos h3b]
      intro hc
      injection hc with hp
      injection hp with ha hb
      subst ha
      exact collapseEmpty_ne_nil _
    rw [if_neg h3b]
    intro hc
    injection hc with hp
    injection hp with ha hb
    subst ha
    exact collapseEmpty_ne_nil _
  rw [if_neg h3]
  by_cases h4 : key = "$"
  · rw [if_pos h4]
    intro hc
    injection hc with hp
    injection hp with ha hb
    subst ha
    exact set_ne_nil _ _ _ h
  rw [if_neg h4]
  by_cases h5 : key = "0"
  · rw [if_pos h5]
    intro hc
    injection hc with hp
    injection hp with ha hb
    subst ha
    exact set_ne_nil _ _ _ h
  rw [if_neg h5]
  by_cases h6 : key = "w"
  · rw [if_pos h6]
    dsimp only
    cases hrem : List.drop ed.cursorCol (curLine ed) with
    | nil =>
      intro hc
      injection hc with hp
      injection hp with ha hb
      subst ha
      exact h
    | cons c rest =>
      dsimp only
      by_cases h6b : isWsChar c = true
      · rw [if_pos h6b]
        intro hc
        injection hc with hp
        injection hp with ha hb
        subst ha
        exact h
      rw [if_neg h6b]
      intro hc
      injection hc with hp
      injection hp with ha hb
      subst ha
      exact set_ne_nil _ _ _ h
  rw [if_neg h6]
  by_cases h7 : (decide (key = "l") || decide (key = "ArrowRight")) = true
  · rw [if_pos h7]
    dsimp only
    by_cases h7b : ed.cursorCol < (curLine ed).length
    · rw [if_pos h7b]
      intro hc
      injection hc with hp
      injection hp with ha hb
      subst ha
      exact set_ne_nil _ _ _ h
    rw [if_neg h7b]
    intro hc
    injection hc with hp
    injection hp with ha hb
    subst ha
    exact h
  rw [if_neg h7]
  by_cases h8 : (decide (key = "h") || decide (key = "ArrowLeft")) = true
  · rw [if_pos h8]
    dsimp only
    by_cases h8b : ed.cursorCol > 0
    · rw [if_pos h8b]
      intro hc
      injection hc with hp
      injection hp with ha hb
      subst ha
      exact set_ne_nil _ _ _ h
    rw [if_neg h8b]
    intro hc
    injection hc with hp
    injection hp with ha hb
    subst ha
    exact h
  rw [if_neg h8]
  intro hc
  exact Option.noConfusion hc

theorem handleDeleteMotion_ne_nil (key : String) (ed : ViEditor) (h : ed.lines ≠ []) :
    (handleDeleteMotion key ed).lines ≠ [] := by
  unfold handleDeleteMotion
  cases hc : dmCore key ed with
  | none => exact h
  | some t =>
    obtain ⟨ed', del, n⟩ := t
    have hne := dmCore_ne_nil key ed h ed' del n hc
    dsimp only
    split <;> exact hne

theorem dd_single_fields (f : String) (l : Line) (cc : Nat) (cb nb : String) (yb : Line)
    (msg : String) (mo cl : Bool) (sc : Option Line) (hnb : nb ≠ "d") :
    (handleKeys (ViEditor.mk f [l] 0 cc .normal cb nb yb msg mo cl sc)
        [nk "d", nk "d"]).lines = [[]] ∧
    (handleKeys (ViEditor.mk f [l] 0 cc .normal cb nb yb msg mo cl sc)
        [nk "d", nk "d"]).cursorRow = 0 ∧
    (handleKeys (ViEditor.mk f [l] 0 cc .normal cb nb yb msg mo cl sc)
        [nk "d", nk "d"]).cursorCol = 0 ∧
    (handleKeys (ViEditor.mk f [l] 0 cc .normal cb nb yb msg mo cl sc)
        [nk "d", nk "d"]).yankBuffer = (if l = [] then yb else l) ∧
    (handleKeys (ViEditor.mk f [l] 0 cc .normal cb nb yb msg mo cl sc)
        [nk "d", nk "d"]).modified = (if l = [] then mo else true) := by
  have hkey1 : handleKey (nk "d") (ViEditor.mk f [l] 0 cc .normal cb nb yb msg mo cl sc)
      = ViEditor.mk f [l] 0 cc .normal cb "d" yb "" mo cl sc := by
    unfold handleKey handleNormalMode
    dsimp only
    rw [if_neg hnb]
    rfl
  have h1 : handleKeys (ViEditor.mk f [l] 0 cc .normal cb nb yb msg mo cl sc)
        [nk "d", nk "d"]
      = handleDeleteMotion "d" (ViEditor.mk f [l] 0 cc .normal cb "d" yb "" mo cl sc) := by
    show handleKeys
      (handleKey (nk "d") (ViEditor.mk f [l] 0 cc .normal cb nb yb msg mo cl sc)) [nk "d"] = _
    rw [hkey1]
    rfl
  rw [h1]
  unfold handleDeleteMotion
  rw [show dmCore "d" (ViEditor.mk f [l] 0 cc .normal cb "d" yb "" mo cl sc)
      = some (ViEditor.mk f [[]] 0 0 .normal cb "d" yb "" mo cl sc, l, 1) from rfl]
  dsimp only
  by_cases hl : l = []
  · rw [if_neg (fun hcon => hcon hl)]
    exact ⟨rfl, rfl, rfl, by rw [if_pos hl], by rw [if_pos hl]⟩
  · rw [if_pos hl]
    exact ⟨rfl, rfl, rfl, by rw [if_neg hl], by rw [if_neg hl]⟩




theorem rowClamp_lt (l2 : List Line) (r : Nat) (h : l2 ≠ []) :
    (if r ≥ l2.length then l2.length - 1 else r) < l2.length := by
  have := List.length_pos.mpr h
  split <;> omega

theorem insertAt_ne_nil (l : List Line) (i : Nat) (x : Line) : insertAt l i x ≠ [] := by
  intro hcon
  have hL := congrArg List.length hcon
  rw [length_insertAt] at hL
  simp at hL

theorem dmCore_bounds (key : String) (ed : ViEditor)
    (hne : ed.lines ≠ []) (hr : ed.cursorRow < ed.lines.length) :
    ∀ ed' del n, dmCore key ed = some (ed', del, n) →
      (ed'.lines ≠ [] ∧ ed'.cursorRow < ed'.lines.length) ∧
      (ed.cursorCol ≤ (curLine ed).length → ed'.cursorCol ≤ (curLine ed').length) := by
  intro ed' del n
  unfold dmCore
  by_cases h1 : key = "d"
  · rw [if_pos h1]
    intro hc
    injection hc with hp
    injection hp with ha hb
    subst ha
    dsimp only [curLine]
    refine ⟨⟨?_, ?_⟩, fun hcol => ?_⟩
    · exact collapseEmpty_ne_nil _
    · exact rowClamp_lt _ _ (collapseEmpty_ne_nil _)
    · omega
  rw [if_neg h1]
  by_cases h2 : (decide (key = "j") || decide (key = "ArrowDown")) = true
  · rw [if_pos h2]
    by_cases h2b : ed.cursorRow < ed.lines.length - 1
    · rw [if_pos h2b]
      intro hc
      injection hc with hp
      injection hp with ha hb
      subst ha
      dsimp only [curLine]
      refine ⟨⟨?_, ?_⟩, fun hcol => ?_⟩
      · exact collapseEmpty_ne_nil _
      · exact rowClamp_lt _ _ (collapseEmpty_ne_nil _)
      · omega
    rw [if_neg h2b]
    intro hc
    injection hc with hp
    injection hp with ha hb
    subst ha
    dsimp only [curLine]
    refine ⟨⟨?_, ?_⟩, fun hcol => ?_⟩
    · exact collapseEmpty_ne_nil _
    · exact rowClamp_lt _ _ (collapseEmpty_ne_nil _)
    · omega
  rw [if_neg h2]
  by_cases h3 : (decide (key = "k") || decide (key = "ArrowUp")) = true
  · rw [if_pos h3]
    by_cases h3b : ed.cursorRow > 0
    · rw [if_pos h3b]
      intro hc
      injection hc with hp
      injection hp with ha hb
      subst ha
      dsimp only [curLine]
      refine ⟨⟨?_, ?_⟩, fun hcol => ?_⟩
      · exact collapseEmpty_ne_nil _
      · exact rowClamp_lt _ _ (collapseEmpty_ne_nil _)
      · omega
    rw [if_neg h3b]
    intro hc
    injection hc with hp
    injection hp with ha hb
    subst ha
    dsimp only [curLine]
    refine ⟨⟨?_, ?_⟩, fun hcol => ?_⟩
    · exact collapseEmpty_ne_nil _
    · have hp2 := List.length_pos.mpr (collapseEmpty_ne_nil (removeCount ed.lines ed.cursorRow 1))
      omega
    · omega
  rw [if_neg h3]
  by_cases h4 : key = "$"
  · rw [if_pos h4]
    intro hc
    injection hc with hp
    injection hp with ha hb
    subst ha
    dsimp only [curLine]
    refine ⟨⟨?_, ?_⟩, fun hcol => ?_⟩
    · exact set_ne_nil _ _ _ hne
    · rw [List.length_set]
      exact hr
    · rw [getD_set_self _ _ _ hr, List.length_take]
      omega
  rw [if_neg h4]
  by_cases h5 : key = "0"
  · rw [if_pos h5]
    intro hc
    injection hc with hp
    injection hp with ha hb
    subst ha
    dsimp only [curLine]
    refine ⟨⟨?_, ?_⟩, fun hcol => ?_⟩
    · exact set_ne_nil _ _ _ hne
    · rw [List.length_set]
      exact hr
    · omega
  rw [if_neg h5]
  by_cases h6 : key = "w"
  · rw [if_pos h6]
    dsimp only
    cases hrem : List.drop ed.cursorCol (curLine ed) with
    | nil =>
      intro hc
      injection hc with hp
      injection hp with ha hb
      subst ha
      dsimp only [curLine]
      refine ⟨⟨?_, ?_⟩, fun hcol => ?_⟩
      · exact hne
      · exact hr
      · exact hcol
    | cons c rest =>
      dsimp only
      by_cases h6b : isWsChar c = true
      · rw [if_pos h6b]
        intro hc
        injection hc with hp
        injection hp with ha hb
        subst ha
        dsimp only [curLine]
        refine ⟨⟨?_, ?_⟩, fun hcol => ?_⟩
        · exact hne
        · exact hr
        · exact hcol
      rw [if_neg h6b]
      intro hc
      injection hc with hp
      injection hp with ha hb
      subst ha
      dsimp only [curLine]
      refine ⟨⟨?_, ?_⟩, fun hcol => ?_⟩
      · exact set_ne_nil _ _ _ hne
      · rw [List.length_set]
        exact hr
      · rw [getD_set_self _ _ _ hr, List.length_append, List.length_take, List.length_drop]
        omega
  rw [if_neg h6]
  by_cases h7 : (decide (key = "l") || decide (key = "ArrowRight")) = true
  · rw [if_pos h7]
    dsimp only
    by_cases h7b : ed.cursorCol < (curLine ed).length
    · rw [if_pos h7b]
      intro hc
      injection hc with hp
      injection hp with ha hb
      subst ha
      dsimp only [curLine]
      refine ⟨⟨?_, ?_⟩, fun hcol => ?_⟩
      · exact set_ne_nil _ _ _ hne
      · rw [List.length_set]
        exact hr
      · rw [getD_set_self _ _ _ hr, List.length_append, List.length_take, List.length_drop]
        omega
    rw [if_neg h7b]
    intro hc
    injection hc with hp
    injection hp with ha hb
    subst ha
    dsimp only [curLine]
    refine ⟨⟨?_, ?_⟩, fun hcol => ?_⟩
    · exact hne
    · exact hr
    · exact hcol
  rw [if_neg h7]
  by_cases h8 : (decide (key = "h") || decide (key = "ArrowLeft")) = true
  · rw [if_pos h8]
    dsimp only
    by_cases h8b : ed.cursorCol > 0
    · rw [if_pos h8b]
      intro hc
      injection hc with hp
      injection hp with ha hb
      subst ha
      dsimp only [curLine]
      refine ⟨⟨?_, ?_⟩, fun hcol => ?_⟩
      · exact set_ne_nil _ _ _ hne
      · rw [List.length_set]
        exact hr
      · rw [getD_set_self _ _ _ hr, List.length_append, List.length_take, List.length_drop]
        omega
    rw [if_neg h8b]
    intro hc
    injection hc with hp
    injection hp with ha hb
    subst ha
    dsimp only [curLine]
    refine ⟨⟨?_, ?_⟩, fun hcol => ?_⟩
    · exact hne
    · exact hr
    · exact hcol
  rw [if_neg h8]
  intro hc
  exact Option.noConfusion hc

theorem handleDeleteMotion_bounds (key : String) (ed : ViEditor)
    (hne : ed.lines ≠ []) (hr : ed.cursorRow < ed.lines.length) :
    ((handleDeleteMotion key ed).lines ≠ [] ∧
      (handleDeleteMotion key ed).cursorRow < (handleDeleteMotion key ed).lines.length) ∧
    (ed.cursorCol ≤ (curLine ed).length →
      (handleDeleteMotion key ed).cursorCol ≤ (curLine (handleDeleteMotion key ed)).length) := by
  unfold handleDeleteMotion
  cases hc : dmCore key ed with
  | none => exact ⟨⟨hne, hr⟩, fun hcol => hcol⟩
  | some t =>
    obtain ⟨ed', del, n⟩ := t
    have hb := dmCore_bounds key ed hne hr ed' del n hc
    dsimp only
    split
    · exact hb
    · exact hb

theorem handleNormalMode_bounds (e : KeyEvent) (ed : ViEditor)
    (hm : ed.mode = .normal)
    (hne : ed.lines ≠ []) (hr : ed.cursorRow < ed.lines.length) :
    ((handleNormalMode e ed).lines ≠ [] ∧
      (handleNormalMode e ed).cursorRow < (handleNormalMode e ed).lines.length) ∧
    (ed.cursorCol ≤ (curLine ed).length → ¬colUnsafeKey ed e →
      (handleNormalMode e ed).cursorCol ≤ (curLine (handleNormalMode e ed)).length) := by
  have hlen : 0 < ed.lines.length := List.length_pos.mpr hne
  unfold handleNormalMode
  by_cases hd : ed.normalModeBuffer = "d"
  · rw [if_pos hd]
    have hb := handleDeleteMotion_bounds e.key ed hne hr
    exact ⟨hb.1, fun hcol hsafe => hb.2 hcol⟩
  rw [if_neg hd]
  dsimp only [curLine]
  by_cases hn1 : (decide (e.key = "h") || decide (e.key = "ArrowLeft")) = true
  · rw [if_pos hn1]
    refine ⟨⟨?_, ?_⟩, fun hcol hsafe => ?_⟩
    · dsimp only
      exact hne
    · dsimp only
      exact hr
    · dsimp only
      omega
  rw [if_neg hn1]
  by_cases hn2 : (decide (e.key = "j") || decide (e.key = "ArrowDown")) = true
  · rw [if_pos hn2]
    refine ⟨⟨?_, ?_⟩, fun hcol hsafe => ?_⟩
    · dsimp only
      exact hne
    · dsimp only
      omega
    · dsimp only
      omega
  rw [if_neg hn2]
  by_cases hn3 : (decide (e.key = "k") || decide (e.key = "ArrowUp")) = true
  · rw [if_pos hn3]
    refine ⟨⟨?_, ?_⟩, fun hcol hsafe => ?_⟩
    · dsimp only
      exact hne
    · dsimp only
      omega
    · dsimp only
      omega
  rw [if_neg hn3]
  by_cases hn4 : (decide (e.key = "l") || decide (e.key = "ArrowRight")) = true
  · rw [if_pos hn4]
    refine ⟨⟨?_, ?_⟩, fun hcol hsafe => ?_⟩
    · dsimp only
      exact hne
    · dsimp only
      exact hr
    · dsimp only
      omega
  rw [if_neg hn4]
  by_cases hn5 : e.key = "0"
  · rw [if_pos hn5]
    refine ⟨⟨?_, ?_⟩, fun hcol hsafe => ?_⟩
    · dsimp only
      exact hne
    · dsimp only
      exact hr
    · dsimp only
      omega
  rw [if_neg hn5]
  by_cases hn6 : e.key = "$"
  · rw [if_pos hn6]
    refine ⟨⟨?_, ?_⟩, fun hcol hsafe => ?_⟩
    · dsimp only
      exact hne
    · dsimp only
      exact hr
    · dsimp only
      omega
  rw [if_neg hn6]
  by_cases hn7 : (decide (e.key = "g") && e.shiftKey) = true
  · rw [if_pos hn7]
    refine ⟨⟨?_, ?_⟩, fun hcol hsafe => ?_⟩
    · dsimp only
      exact hne
    · dsimp only
      omega
    · dsimp only
      rw [Bool.and_eq_true, decide_eq_true_eq] at hn7
      exact absurd (show colUnsafeKey ed e from ⟨hm, hd, Or.inr hn7⟩) hsafe
  rw [if_neg hn7]
  by_cases hn8 : e.key = "i"
  · rw [if_pos hn8]
    exact ⟨⟨hne, hr⟩, fun hcol hsafe => hcol⟩
  rw [if_neg hn8]
  by_cases hn9 : e.key = "a"
  · rw [if_pos hn9]
    refine ⟨⟨?_, ?_⟩, fun hcol hsafe => ?_⟩
    · dsimp only
      exact hne
    · dsimp only
      exact hr
    · dsimp only
      omega
  rw [if_neg hn9]
  by_cases hn10 : e.key = "o"
  · rw [if_pos hn10]
    refine ⟨⟨?_, ?_⟩, fun hcol hsafe => ?_⟩
    · dsimp only
      exact insertAt_ne_nil _ _ _
    · dsimp only
      rw [length_insertAt]
      omega
    · dsimp only
      omega
  rw [if_neg hn10]
  by_cases hn11 : (decide (e.key = "O") && e.shiftKey) = true
  · rw [if_pos hn11]
    refine ⟨⟨?_, ?_⟩, fun hcol hsafe => ?_⟩
    · dsimp only
      exact insertAt_ne_nil _ _ _
    · dsimp only
      rw [length_insertAt]
      omega
    · dsimp only
      omega
  rw [if_neg hn11]
  by_cases hn12 : e.key = "x"
  · rw [if_pos hn12]
    by_cases hx : ed.cursorCol < (ed.lines.getD ed.cursorRow []).length
    · rw [if_pos hx]
      refine ⟨⟨?_, ?_⟩, fun hcol hsafe => ?_⟩
      · dsimp only
        exact set_ne_nil _ _ _ hne
      · dsimp only
        rw [List.length_set]
        exact hr
      · dsimp only
        rw [getD_set_self _ _ _ hr, List.length_append, List.length_take, List.length_drop]
        omega
    rw [if_neg hx]
    exact ⟨⟨hne, hr⟩, fun hcol hsafe => hcol⟩
  rw [if_neg hn12]
  by_cases hn13 : (decide (e.key = "d") && e.shiftKey) = true
  · rw [if_pos hn13]
    refine ⟨⟨?_, ?_⟩, fun hcol hsafe => ?_⟩
    · dsimp only
      exact set_ne_nil _ _ _ hne
    · dsimp only
      rw [List.length_set]
      exact hr
    · dsimp only
      rw [getD_set_self _ _ _ hr, List.length_take]
      omega
  rw [if_neg hn13]
  by_cases hn14 : (decide (e.key = "d") && !e.shiftKey) = true
  · rw [if_pos hn14]
    exact ⟨⟨hne, hr⟩, fun hcol hsafe => hcol⟩
  rw [if_neg hn14]
  by_cases hn15 : (decide (e.key = "y") && e.shiftKey) = true
  · rw [if_pos hn15]
    exact ⟨⟨hne, hr⟩, fun hcol hsafe => hcol⟩
  rw [if_neg hn15]
  by_cases hn16 : e.key = "p"
  · rw [if_pos hn16]
    by_cases hy : ed.yankBuffer ≠ []
    · rw [if_pos hy]
      refine ⟨⟨?_, ?_⟩, fun hcol hsafe => ?_⟩
      · dsimp only
        exact insertAt_ne_nil _ _ _
      · dsimp only
        rw [length_insertAt]
        omega
      · dsimp only
        exact absurd (show colUnsafeKey ed e from ⟨hm, hd, Or.inl hn16⟩) hsafe
    rw [if_neg hy]
    exact ⟨⟨hne, hr⟩, fun hcol hsafe => hcol⟩
  rw [if_neg hn16]
  by_cases hn17 : e.key = ":"
  · rw [if_pos hn17]
    exact ⟨⟨hne, hr⟩, fun hcol hsafe => hcol⟩
  rw [if_neg hn17]
  exact ⟨⟨hne, hr⟩, fun hcol hsafe => hcol⟩

theorem getD_removeCount_lt (l : List Line) (i j n : Nat) (hj : j < i) (hi : i ≤ l.length) :
    (removeCount l i n).getD j [] = l.getD j [] := by
  unfold removeCount
  have hjt : j < (List.take i l).length := by
    rw [List.length_take]
    omega
  rw [List.getD, List.getD, List.get?_eq_getElem?, List.get?_eq_getElem?,
    List.getElem?_append_left hjt, List.getElem?_take, if_pos hj]

theorem handleInsertMode_bounds (e : KeyEvent) (ed : ViEditor)
    (hne : ed.lines ≠ []) (hr : ed.cursorRow < ed.lines.length) :
    ((handleInsertMode e ed).lines ≠ [] ∧
      (handleInsertMode e ed).cursorRow < (handleInsertMode e ed).lines.length) ∧
    (ed.cursorCol ≤ (curLine ed).length →
      (handleInsertMode e ed).cursorCol ≤ (curLine (handleInsertMode e ed)).length) := by
  have hlen : 0 < ed.lines.length := List.length_pos.mpr hne
  unfold handleInsertMode
  dsimp only [curLine]
  by_cases h1 : e.key = "Escape"
  · rw [if_pos h1]
    refine ⟨⟨?_, ?_⟩, fun hcol => ?_⟩
    · dsimp only
      exact hne
    · dsimp only
      exact hr
    · dsimp only
      omega
  rw [if_neg h1]
  by_cases h2 : e.key = "Enter"
  · rw [if_pos h2]
    refine ⟨⟨?_, ?_⟩, fun hcol => ?_⟩
    · dsimp only
      exact insertAt_ne_nil _ _ _
    · dsimp only
      rw [length_insertAt, List.length_set]
      omega
    · dsimp only
      omega
  rw [if_neg h2]
  by_cases h3 : e.key = "Backspace"
  · rw [if_pos h3]
    by_cases hbc : ed.cursorCol > 0
    · rw [if_pos hbc]
      refine ⟨⟨?_, ?_⟩, fun hcol => ?_⟩
      · dsimp only
        exact set_ne_nil _ _ _ hne
      · dsimp only
        rw [List.length_set]
        exact hr
      · dsimp only
        rw [getD_set_self _ _ _ hr, List.length_append, List.length_take, List.length_drop]
        omega
    rw [if_neg hbc]
    by_cases hbr : ed.cursorRow > 0
    · rw [if_pos hbr]
      refine ⟨⟨?_, ?_⟩, fun hcol => ?_⟩
      · dsimp only
        intro hcon
        have hL := congrArg List.length hcon
        rw [length_removeCount, List.length_set, List.length_nil] at hL
        omega
      · dsimp only
        rw [length_removeCount, List.length_set]
        omega
      · dsimp only
        rw [getD_removeCount_lt
              (ed.lines.set (ed.cursorRow - 1)
                (ed.lines.getD (ed.cursorRow - 1) [] ++ ed.lines.getD ed.cursorRow []))
              ed.cursorRow (ed.cursorRow - 1) 1 (by omega) (by rw [List.length_set]; omega),
            getD_set_self _ _ _ (by omega), List.length_append]
        omega
    rw [if_neg hbr]
    exact ⟨⟨hne, hr⟩, fun hcol => hcol⟩
  rw [if_neg h3]
  rcases hk : e.key with ⟨_ | ⟨ch, _ | ⟨c2, r2⟩⟩⟩ <;>
    cases hct : e.ctrlKey <;> cases hmt : e.metaKey <;>
      first
        | exact ⟨⟨hne, hr⟩, fun hcol => hcol⟩
        | (dsimp only
           refine ⟨⟨?_, ?_⟩, fun hcol => ?_⟩
           · exact set_ne_nil _ _ _ hne
           · rw [List.length_set]
             exact hr
           · rw [getD_set_self _ _ _ hr]
             simp only [List.length_append, List.length_take, List.length_cons,
               List.length_drop]
             omega)

theorem handleCommandMode_geom (e : KeyEvent) (ed : ViEditor) :
    (handleCommandMode e ed).lines = ed.lines ∧
    (handleCommandMode e ed).cursorRow = ed.cursorRow ∧
    (handleCommandMode e ed).cursorCol = ed.cursorCol := by
  unfold handleCommandMode executeEditorCommand saveEditor closeEditor
  dsimp only
  by_cases h1 : e.key = "Escape"
  · rw [if_pos h1]
    exact ⟨rfl, rfl, rfl⟩
  rw [if_neg h1]
  by_cases h2 : e.key = "Enter"
  · rw [if_pos h2]
    by_cases hc1 : ed.commandBuffer = "w"
    · rw [if_pos hc1]
      exact ⟨rfl, rfl, rfl⟩
    rw [if_neg hc1]
    by_cases hc2 : ed.commandBuffer = "q"
    · rw [if_pos hc2]
      by_cases hmod : ed.modified = true
      · rw [if_pos hmod]
        exact ⟨rfl, rfl, rfl⟩
      rw [if_neg hmod]
      exact ⟨rfl, rfl, rfl⟩
    rw [if_neg hc2]
    by_cases hc3 : ed.commandBuffer = "q!"
    · rw [if_pos hc3]
      exact ⟨rfl, rfl, rfl⟩
    rw [if_neg hc3]
    by_cases hc4 : (decide (ed.commandBuffer = "wq") || decide (ed.commandBuffer = "x")) = true
    · rw [if_pos hc4]
      exact ⟨rfl, rfl, rfl⟩
    rw [if_neg hc4]
    exact ⟨rfl, rfl, rfl⟩
  rw [if_neg h2]
  by_cases h3 : e.key = "Backspace"
  · rw [if_pos h3]
    by_cases hcb : (⟨ed.commandBuffer.data.dropLast⟩ : String) = ""
    · rw [if_pos hcb]
      exact ⟨rfl, rfl, rfl⟩
    rw [if_neg hcb]
    exact ⟨rfl, rfl, rfl⟩
  rw [if_neg h3]
  rcases hk : e.key with ⟨_ | ⟨ch, _ | ⟨c2, r2⟩⟩⟩ <;>
    cases hct : e.ctrlKey <;> cases hmt : e.metaKey <;>
      exact ⟨rfl, rfl, rfl⟩

/-- C9 (corrected): after any completed delete-motion the line buffer is
nonempty; and pressing `d` then `d` on a one-line buffer leaves the buffer
`[""]` with the cursor at `(0, 0)`.  The claim's final part is corrected:
the deleted text reaches the yank buffer and `modified` is set only when the
single line was nonempty — deleting the only (empty) line leaves the yank
buffer and the `modified` flag unchanged, because the source guards the
update with `if (deletedContent)` and the empty string is falsy. -/
theorem c9_delete_motion_amended :
    (∀ ed key, ed.lines ≠ [] → (handleDeleteMotion key ed).lines ≠ []) ∧
    (∀ ed l, ed.mode = .normal → ed.normalModeBuffer ≠ "d" → ed.lines = [l] →
      ed.cursorRow = 0 →
      (handleKeys ed [nk "d", nk "d"]).lines = [[]] ∧
      (handleKeys ed [nk "d", nk "d"]).cursorRow = 0 ∧
      (handleKeys ed [nk "d", nk "d"]).cursorCol = 0 ∧
      (handleKeys ed [nk "d", nk "d"]).yankBuffer = (if l = [] then ed.yankBuffer else l) ∧
      (handleKeys ed [nk "d", nk "d"]).modified = (if l = [] then ed.modified else true)) := by
  constructor
  · intro ed key hne
    exact handleDeleteMotion_ne_nil key ed hne
  · intro ed l hm hnb hl hr
    obtain ⟨f, ls, cr, cc, m, cb, nb, yb, msg, mo, cl, sc⟩ := ed
    dsimp only at hm hnb hl hr ⊢
    subst hm hl hr
    exact dd_single_fields f l cc cb nb yb msg mo cl sc hnb

/-- C9 counterexample to the claim as stated: opening an empty file (one
empty line) and pressing `d` `d` completes the delete-motion — the buffer
collapses to `[""]` — yet `modified` stays `false` and the yank buffer does
not receive the deleted (empty) text, while the claim asserts the deleted
text is placed in the yank buffer and the modified flag is set. -/
theorem c9_delete_motion_counterexample :
    (handleKeys (mkViEditor "f.txt" "") [nk "d", nk "d"]).lines = [[]] ∧
    (handleKeys (mkViEditor "f.txt" "") [nk "d", nk "d"]).cursorRow = 0 ∧
    (handleKeys (mkViEditor "f.txt" "") [nk "d", nk "d"]).cursorCol = 0 ∧
    (handleKeys (mkViEditor "f.txt" "") [nk "d", nk "d"]).modified = false := by
  decide

/-- C9 witness: the amended theorem applied to the editor opened on content
`"abc"`, whose single line is nonempty, so `dd` yanks it and sets
`modified`. -/
theorem c9_delete_motion_witness :
    (handleDeleteMotion "d" (mkViEditor "f.txt" "abc")).lines ≠ [] ∧
    (handleKeys (mkViEditor "f.txt" "abc") [nk "d", nk "d"]).lines = [[]] ∧
    (handleKeys (mkViEditor "f.txt" "abc") [nk "d", nk "d"]).yankBuffer =
      (if ("abc".data : Line) = [] then (mkViEditor "f.txt" "abc").yankBuffer
       else "abc".data) :=
  ⟨c9_delete_motion_amended.1 (mkViEditor "f.txt" "abc") "d" (by decide),
   (c9_delete_motion_amended.2 (mkViEditor "f.txt" "abc") "abc".data (by decide) (by decide)
      (by decide) (by decide)).1,
   (c9_delete_motion_amended.2 (mkViEditor "f.txt" "abc") "abc".data (by decide) (by decide)
      (by decide) (by decide)).2.2.2.1⟩



/-- C8 (corrected): the row half of the cursor invariant does hold — for
every editor state with a nonempty buffer and in-range `cursorRow`, any
keystroke keeps `cursorRow` within `[0, lines.length - 1]` — but the column
half `cursorCol ≤ lines[cursorRow].length` is preserved only away from the
two unclamping normal-mode keystrokes (`p` paste and `Shift+G` jump,
`colUnsafeKey`): both move the cursor to another line while leaving
`cursorCol` untouched, so they can leave the column strictly beyond the end
of the new current line. -/
theorem c8_cursor_bounds_amended (ed : ViEditor) (e : KeyEvent) (hrow : cursorRowOK ed) :
    cursorRowOK (handleKey e ed) ∧
    (cursorColOK ed → ¬colUnsafeKey ed e → cursorColOK (handleKey e ed)) := by
  obtain ⟨hne, hr⟩ := hrow
  unfold handleKey
  dsimp only
  cases hm : ed.mode with
  | normal =>
    have hb := handleNormalMode_bounds e
      { ed with message := "", mode := EMode.normal } rfl hne hr
    exact ⟨hb.1, fun hcol hsafe =>
      hb.2 hcol (fun hcu => hsafe ⟨hm, hcu.2.1, hcu.2.2⟩)⟩
  | insert =>
    have hb := handleInsertMode_bounds e
      { ed with message := "", mode := EMode.insert } hne hr
    exact ⟨hb.1, fun hcol _ => hb.2 hcol⟩
  | command =>
    have hg := handleCommandMode_geom e { ed with message := "", mode := EMode.command }
    constructor
    · refine ⟨?_, ?_⟩
      · rw [hg.1]
        exact hne
      · rw [hg.1, hg.2.1]
        exact hr
    · intro hcol _
      unfold cursorColOK curLine
      rw [hg.1, hg.2.1, hg.2.2]
      exact hcol

/-- C8 counterexample to the claim as stated: from the freshly opened buffer
`abc`, the reachable keystroke sequence `$ d h p` (delete-motion `dh` leaves
the yank buffer `c` and column 2, then `p` pastes below and moves the cursor
to the new one-character line without clamping) ends with `cursorCol = 2`
strictly greater than the current line's length 1 — the claimed column bound
fails. -/
theorem c8_cursor_bounds_counterexample :
    cursorRowOK (handleKeys (mkViEditor "f.txt" "abc") [nk "$", nk "d", nk "h", nk "p"]) ∧
    ¬cursorColOK (handleKeys (mkViEditor "f.txt" "abc") [nk "$", nk "d", nk "h", nk "p"]) := by
  constructor
  · exact ⟨by decide, by decide⟩
  · intro hcol
    have hc2 : (handleKeys (mkViEditor "f.txt" "abc")
        [nk "$", nk "d", nk "h", nk "p"]).cursorCol ≤
        (curLine (handleKeys (mkViEditor "f.txt" "abc")
          [nk "$", nk "d", nk "h", nk "p"])).length := hcol
    revert hc2
    decide

/-- C8 witness: the amended theorem applied to the fresh editor on `abc` and
the (column-safe) keystroke `x`. -/
theorem c8_cursor_bounds_witness :
    cursorRowOK (handleKey (nk "x") (mkViEditor "f.txt" "abc")) ∧
    cursorColOK (handleKey (nk "x") (mkViEditor "f.txt" "abc")) := by
  have h := c8_cursor_bounds_amended (mkViEditor "f.txt" "abc") (nk "x")
    ⟨by decide, by decide⟩
  refine ⟨h.1, h.2 (show (mkViEditor "f.txt" "abc").cursorCol ≤
    (curLine (mkViEditor "f.txt" "abc")).length by decide) ?_⟩
  intro hcon
  rcases hcon with ⟨-, -, hk | ⟨hk, -⟩⟩ <;> exact absurd hk (by decide)

end UnixShellJS
